import Mathlib

/-!
A shallow embedding of the libarsc chunk codec (Android resources.arsc
binary format) and proofs about its decode/encode functions.

Byte buffers are lists of natural numbers (each byte below 256 on every
encoded output).  Fallible decoding is modelled with Except.  Python
slices with possibly negative indices are modelled by pyTake and pyDrop.

Sources embedded: arsc/chunk.py, arsc/table.py (ResTable_header),
arsc/stringpool.py, arsc/tabletype.py, arsc/config.py, arsc/package.py,
arsc/arsc.py, arsc/exceptions.py, and the fixed width integer codecs in
type/uint8.py, type/uint16.py, arsc/type/uint32.py.
-/

set_option linter.unusedVariables false

namespace Arsc

abbrev Bytes := List Nat

/-- Python slice b[:i] for an Int index: negative indices count from the
end, clamped at zero. -/
def pyTake (b : Bytes) (i : Int) : Bytes :=
if 0 ≤ i then b.take i.toNat else b.take (b.length - (-i).toNat)

/-- Python slice b[i:] for an Int index: negative indices count from the
end, clamped at zero. -/
def pyDrop (b : Bytes) (i : Int) : Bytes :=
if 0 ≤ i then b.drop i.toNat else b.drop (b.length - (-i).toNat)

/-- Little endian byte encoding of a natural number on w bytes.  Each
byte is reduced modulo 256, so values of at least 256 to the w are
wrapped, matching the specification of the primitive integer codec
(values are unsigned and wrap constructed on encode). -/
def natToLe : Nat → Nat → Bytes
| 0, _ => []
| w + 1, v => v % 256 :: natToLe w (v / 256)

/-- Value of a little endian byte list. -/
def leToNat : Bytes → Nat
| [] => 0
| x :: t => x + 256 * leToNat t

/-- Errors of the codec.  Each constructor mirrors one Python exception:
structError is struct.error on a short unpack (the TruncatedInput
condition); chunkHeaderWrongType is ChunkHeaderWrongTypeException with
its expectedType argument (a one element list models a single expected
type) and its optional chunkType argument; stringPoolInconsistent and
styleSpanPoolInconsistent are the bare Exception raises in
ResStringPool.from_bytes; nameTooLong, nameNotNullTerminated and
nameMustBeBytes are the bare Exception raises in
ResTable_package_header (the InvalidField family); noneAppend is the
AttributeError from spec.append when spec is None; noneNotIterable is
the TypeError from iterating None in ResTable_package bytes;
fuelExhausted is an artifact of the fuel bounded scan loop and is never
reached when the fuel is the length of the buffer. -/
inductive Err where
| structError : Err
| wrongType : String → Err
| chunkHeaderWrongType : List Nat → Option Nat → Err
| stringPoolInconsistent : Err
| styleSpanPoolInconsistent : Err
| nameTooLong : Nat → Nat → Err
| nameNotNullTerminated : Err
| nameMustBeBytes : Err
| noneAppend : Err
| noneNotIterable : Err
| fuelExhausted : Err
deriving DecidableEq, Repr

/-- uint8 from type/uint8.py: only the integer matters, one byte. -/
structure U8 where
val : Nat
deriving DecidableEq, Repr

/-- uint16 from type/uint16.py: integer plus endianness flag. -/
structure U16 where
val : Nat
little : Bool
deriving DecidableEq, Repr

/-- uint32 from arsc/type/uint32.py: integer plus endianness flag. -/
structure U32 where
val : Nat
little : Bool
deriving DecidableEq, Repr

/-- uint8 bytes: struct.pack of one byte. -/
def U8.bytes (u : U8) : Bytes := [u.val % 256]

/-- uint16 bytes: two bytes in the endianness the object carries. -/
def U16.bytes (u : U16) : Bytes :=
if u.little then natToLe 2 u.val else (natToLe 2 u.val).reverse

/-- uint32 bytes: four bytes in the endianness the object carries. -/
def U32.bytes (u : U32) : Bytes :=
if u.little then natToLe 4 u.val else (natToLe 4 u.val).reverse

/-- uint8.from_bytes: unpack one byte; struct.error when empty. -/
def readU8 : Bytes → Except Err (U8 × Bytes)
| [] => .error .structError
| x :: t => .ok (⟨x⟩, t)

/-- uint16.from_bytes: unpack b[:2] in the requested byte order;
struct.error when fewer than two bytes remain. -/
def readU16 (b : Bytes) (little : Bool) : Except Err (U16 × Bytes) :=
if b.length < 2 then .error .structError
else .ok (⟨if little then leToNat (b.take 2) else leToNat (b.take 2).reverse, little⟩, b.drop 2)

/-- uint32.from_bytes: unpack b[:4] in the requested byte order;
struct.error when fewer than four bytes remain. -/
def readU32 (b : Bytes) (little : Bool) : Except Err (U32 × Bytes) :=
if b.length < 4 then .error .structError
else .ok (⟨if little then leToNat (b.take 4) else leToNat (b.take 4).reverse, little⟩, b.drop 4)

/-- ResourceType values are 16 bit enum tags.  The enum is open: unknown
numeric tags are representable, so a tag is just a natural number. -/
abbrev ResourceType := Nat

def RES_NULL_TYPE : ResourceType := 0x0000
def RES_STRING_POOL_TYPE : ResourceType := 0x0001
def RES_TABLE_TYPE : ResourceType := 0x0002
def RES_XML_TYPE : ResourceType := 0x0003
def RES_TABLE_PACKAGE_TYPE : ResourceType := 0x0200
def RES_TABLE_TYPE_TYPE : ResourceType := 0x0201
def RES_TABLE_TYPE_SPEC_TYPE : ResourceType := 0x0202

/-- Modelled from the spec: the enum base codec (arsc/type/enum.py) is
not under src/.  The spec fixes the type tag as a 16 bit open int backed
enum whose bytes form is big endian (callers reverse it for little
endian) and whose from_bytes honours the requested byte order, failing
with the TruncatedInput condition on a short buffer. -/
def ResourceType.bytes (t : ResourceType) : Bytes := (natToLe 2 t).reverse

/-- Modelled from the spec: see ResourceType.bytes. -/
def ResourceType.from_bytes (b : Bytes) (little : Bool) : Except Err (ResourceType × Bytes) :=
if b.length < 2 then .error .structError
else .ok (if little then leToNat (b.take 2) else leToNat (b.take 2).reverse, b.drop 2)

/-- Modelled from the spec: the Flag base codec (arsc/type/flag.py) is
not under src/.  The spec fixes flags as a u32 bitset; its bytes form is
big endian (the string pool header reverses it to serialize little
endian) and from_bytes honours the requested byte order. -/
abbrev Flags := Nat

def Flags.bytes (f : Flags) : Bytes := (natToLe 4 f).reverse

/-- Modelled from the spec: see Flags.bytes. -/
def Flags.from_bytes (b : Bytes) (little : Bool) : Except Err (Flags × Bytes) :=
if b.length < 4 then .error .structError
else .ok (if little then leToNat (b.take 4) else leToNat (b.take 4).reverse, b.drop 4)

/-- ResChunk_header from arsc/chunk.py: type tag, header size, total
chunk size. -/
structure ResChunk_header where
type : ResourceType
headerSize : U16
size : U32
deriving DecidableEq, Repr

/-- ResChunk_header bytes: the type is serialized reversed (always
little endian); headerSize and size follow their own endianness. -/
def ResChunk_header.bytes (v : ResChunk_header) : Bytes :=
(ResourceType.bytes v.type).reverse ++ v.headerSize.bytes ++ v.size.bytes

/-- ResChunk_header.from_bytes: the little parameter is accepted but the
fields are always read little endian. -/
def ResChunk_header.from_bytes (b : Bytes) (little : Bool) : Except Err (ResChunk_header × Bytes) := do
let (chunkType, b) ← ResourceType.from_bytes b true
let (headerSize, b) ← readU16 b true
let (size, b) ← readU32 b true
.ok (⟨chunkType, headerSize, size⟩, b)

/-- ResTable_header from arsc/table.py. -/
structure ResTable_header where
header : ResChunk_header
packageCount : U32
deriving DecidableEq, Repr

/-- ResTable_header construction: validates the chunk type, raising
ChunkHeaderWrongTypeException(RES_TABLE_TYPE) on mismatch. -/
def ResTable_header.init (header : ResChunk_header) (packageCount : U32) : Except Err ResTable_header :=
if header.type ≠ RES_TABLE_TYPE then .error (.chunkHeaderWrongType [RES_TABLE_TYPE] none)
else .ok ⟨header, packageCount⟩

def ResTable_header.bytes (v : ResTable_header) : Bytes :=
v.header.bytes ++ v.packageCount.bytes

def ResTable_header.from_bytes (b : Bytes) (little : Bool) : Except Err (ResTable_header × Bytes) := do
let (header, b) ← ResChunk_header.from_bytes b true
let (packageCount, b) ← readU32 b true
let v ← ResTable_header.init header packageCount
.ok (v, b)

/-- ResStringPool_header from arsc/stringpool.py. -/
structure ResStringPool_header where
header : ResChunk_header
stringCount : U32
styleCount : U32
flags : Flags
stringsStart : U32
stylesStart : U32
deriving DecidableEq, Repr

/-- ResStringPool_header construction: validates the chunk type. -/
def ResStringPool_header.init (header : ResChunk_header) (stringCount styleCount : U32)
    (flags : Flags) (stringsStart stylesStart : U32) : Except Err ResStringPool_header :=
if header.type ≠ RES_STRING_POOL_TYPE then .error (.chunkHeaderWrongType [RES_STRING_POOL_TYPE] none)
else .ok ⟨header, stringCount, styleCount, flags, stringsStart, stylesStart⟩

/-- ResStringPool_header bytes: the flags are serialized reversed, which
makes them little endian on the wire. -/
def ResStringPool_header.bytes (v : ResStringPool_header) : Bytes :=
v.header.bytes ++ v.stringCount.bytes ++ v.styleCount.bytes ++ (Flags.bytes v.flags).reverse ++
  v.stringsStart.bytes ++ v.stylesStart.bytes

def ResStringPool_header.from_bytes (b : Bytes) (little : Bool) : Except Err (ResStringPool_header × Bytes) := do
let (header, b) ← ResChunk_header.from_bytes b true
let (stringCount, b) ← readU32 b true
let (styleCount, b) ← readU32 b true
let (flags, b) ← Flags.from_bytes b true
let (stringsStart, b) ← readU32 b true
let (stylesStart, b) ← readU32 b true
let v ← ResStringPool_header.init header stringCount styleCount flags stringsStart stylesStart
.ok (v, b)

/-- ResStringPool from arsc/stringpool.py: header, string references,
style references, raw string blobs and raw style blobs. -/
structure ResStringPool where
header : ResStringPool_header
strrefs : List U32
stylerefs : List U32
strings : List Bytes
styles : List Bytes
deriving DecidableEq, Repr

/-- Sets the endianness of a uint32 to little, as the reference mutation
loop in ResStringPool does. -/
def setLittle (u : U32) : U32 := ⟨u.val, true⟩

/-- ResStringPool construction.  The source mutates every element of
strrefs to little endian; the loop that was meant to do the same for
stylerefs iterates strrefs again, so stylerefs keep their endianness. -/
def ResStringPool.init (header : ResStringPool_header) (strrefs stylerefs : List U32)
    (strings styles : List Bytes) : ResStringPool :=
⟨header, strrefs.map setLittle, stylerefs, strings, styles⟩

/-- ResStringPool._split_fixed_list for uint32 elements: reads count
values, returning them with the unread remainder. -/
def splitFixedU32 : Bytes → Nat → Except Err (List U32 × Bytes)
| b, 0 => .ok ([], b)
| b, n + 1 => do
  let (e, b) ← readU32 b true
  let (res, b) ← splitFixedU32 b n
  .ok (e :: res, b)

/-- ResStringPool._offsets_to_length: differences of consecutive
offsets, as integers (they can be negative). -/
def offsetsToLength : List U32 → List Int
| a :: b :: t => ((b.val : Int) - (a.val : Int)) :: offsetsToLength (b :: t)
| _ => []

/-- ResStringPool._split_variable_length_strings: cuts a buffer into
pieces of the given lengths with Python slice semantics. -/
def splitVarStrings : Bytes → List Int → List Bytes
| _, [] => []
| b, l :: ls => pyTake b l :: splitVarStrings (pyDrop b l) ls

/-- ResStringPool bytes: header, then both reference lists, then the
string blobs, then the style blobs. -/
def ResStringPool.bytes (v : ResStringPool) : Bytes :=
v.header.bytes ++ (v.strrefs.map U32.bytes).flatten ++ (v.stylerefs.map U32.bytes).flatten ++
  v.strings.flatten ++ v.styles.flatten

/-- ResStringPool.from_bytes.  The working buffer is truncated to the
declared chunk size for the string and style blobs, but the reference
lists are split from the untruncated remainder after the header. -/
def ResStringPool.from_bytes (b : Bytes) (little : Bool) : Except Err (ResStringPool × Bytes) := do
let content := b
let (header, b) ← ResStringPool_header.from_bytes b true
let size := header.header.size.val
let contentT := content.take size
let rest := content.drop size
let strrefslen := header.stringCount.val * 4
let stylerefslen := header.styleCount.val * 4
let (strrefsB, b, stringsB) :=
  if strrefslen > 0 then (b.take strrefslen, b.drop strrefslen, contentT.drop header.stringsStart.val)
  else ([], b, [])
let (stylerefsB, _b, stylesB) :=
  if stylerefslen > 0 then (b.take stylerefslen, b.drop stylerefslen, contentT.drop header.stylesStart.val)
  else ([], b, [])
let (strrefs, r) ← splitFixedU32 strrefsB header.stringCount.val
if r.length > 0 then .error .stringPoolInconsistent else
let (stylerefs, r2) ← splitFixedU32 stylerefsB header.styleCount.val
if r2.length > 0 then .error .styleSpanPoolInconsistent else
let strlengths := offsetsToLength (strrefs ++ [⟨stringsB.length, false⟩])
let stylelengths := offsetsToLength (stylerefs ++ [⟨stylesB.length, false⟩])
let strings := splitVarStrings stringsB strlengths
let styles := splitVarStrings stylesB stylelengths
.ok (ResStringPool.init header strrefs stylerefs strings styles, rest)

/-- ResTable_config from arsc/config.py: only the size field is
interpreted; the remaining size minus four bytes are kept opaque. -/
structure ResTable_config where
size : U32
notimpl : Bytes
deriving DecidableEq, Repr

def ResTable_config.bytes (v : ResTable_config) : Bytes :=
v.size.bytes ++ v.notimpl

def ResTable_config.from_bytes (b : Bytes) : Except Err (ResTable_config × Bytes) := do
let (size, b) ← readU32 b true
let restlen : Int := (size.val : Int) - 4
let notimpl := pyTake b restlen
let b := pyDrop b restlen
.ok (⟨size, notimpl⟩, b)

/-- ResTable_typeSpec_header from arsc/tabletype.py. -/
structure ResTable_typeSpec_header where
header : ResChunk_header
id : U8
res0 : U8
res1 : U16
entryCount : U32
deriving DecidableEq, Repr

/-- ResTable_typeSpec_header construction: validates the chunk type. -/
def ResTable_typeSpec_header.init (header : ResChunk_header) (id res0 : U8) (res1 : U16)
    (entryCount : U32) : Except Err ResTable_typeSpec_header :=
if header.type ≠ RES_TABLE_TYPE_SPEC_TYPE then
  .error (.chunkHeaderWrongType [RES_TABLE_TYPE_SPEC_TYPE] none)
else .ok ⟨header, id, res0, res1, entryCount⟩

def ResTable_typeSpec_header.bytes (v : ResTable_typeSpec_header) : Bytes :=
v.header.bytes ++ v.id.bytes ++ v.res0.bytes ++ v.res1.bytes ++ v.entryCount.bytes

def ResTable_typeSpec_header.from_bytes (b : Bytes) (little : Bool) :
    Except Err (ResTable_typeSpec_header × Bytes) := do
let (header, b) ← ResChunk_header.from_bytes b true
let (id, b) ← readU8 b
let (res0, b) ← readU8 b
let (res1, b) ← readU16 b true
let (entryCount, b) ← readU32 b true
let v ← ResTable_typeSpec_header.init header id res0 res1 entryCount
.ok (v, b)

/-- ResTable_typeSpec: header plus the raw configuration mask blob. -/
structure ResTable_typeSpec where
header : ResTable_typeSpec_header
configs : Bytes
deriving DecidableEq, Repr

def ResTable_typeSpec.bytes (v : ResTable_typeSpec) : Bytes :=
v.header.bytes ++ v.configs

/-- ResTable_typeSpec.from_bytes: the body is whatever lies between
headerSize and size, sliced with Python semantics. -/
def ResTable_typeSpec.from_bytes (b : Bytes) (little : Bool) :
    Except Err (ResTable_typeSpec × Bytes) := do
let (header, b) ← ResTable_typeSpec_header.from_bytes b true
let restlen : Int := (header.header.size.val : Int) - (header.header.headerSize.val : Int)
let rest := pyTake b restlen
let b := pyDrop b restlen
.ok (⟨header, rest⟩, b)

/-- ResTable_type_header from arsc/tabletype.py: fixed fields plus a
nested length prefixed configuration record. -/
structure ResTable_type_header where
header : ResChunk_header
id : U8
res0 : U8
res1 : U16
entryCount : U32
entriesStart : U32
config : ResTable_config
deriving DecidableEq, Repr

/-- ResTable_type_header construction: validates the chunk type. -/
def ResTable_type_header.init (header : ResChunk_header) (id res0 : U8) (res1 : U16)
    (entryCount entriesStart : U32) (config : ResTable_config) : Except Err ResTable_type_header :=
if header.type ≠ RES_TABLE_TYPE_TYPE then
  .error (.chunkHeaderWrongType [RES_TABLE_TYPE_TYPE] none)
else .ok ⟨header, id, res0, res1, entryCount, entriesStart, config⟩

def ResTable_type_header.bytes (v : ResTable_type_header) : Bytes :=
v.header.bytes ++ v.id.bytes ++ v.res0.bytes ++ v.res1.bytes ++ v.entryCount.bytes ++
  v.entriesStart.bytes ++ v.config.bytes

def ResTable_type_header.from_bytes (b : Bytes) (little : Bool) :
    Except Err (ResTable_type_header × Bytes) := do
let (header, b) ← ResChunk_header.from_bytes b true
let (id, b) ← readU8 b
let (res0, b) ← readU8 b
let (res1, b) ← readU16 b true
let (entryCount, b) ← readU32 b true
let (entriesStart, b) ← readU32 b true
let (config, b) ← ResTable_config.from_bytes b
let v ← ResTable_type_header.init header id res0 res1 entryCount entriesStart config
.ok (v, b)

/-- ResTable_type: header plus the raw entry blob. -/
structure ResTable_type where
header : ResTable_type_header
rest : Bytes
deriving DecidableEq, Repr

def ResTable_type.bytes (v : ResTable_type) : Bytes :=
v.header.bytes ++ v.rest

def ResTable_type.from_bytes (b : Bytes) (little : Bool) :
    Except Err (ResTable_type × Bytes) := do
let (header, b) ← ResTable_type_header.from_bytes b true
let restlen : Int := (header.header.size.val : Int) - (header.header.headerSize.val : Int)
let rest := pyTake b restlen
let b := pyDrop b restlen
.ok (⟨header, rest⟩, b)

/-- The dynamic name argument of the package header constructor: the
source checks isinstance(name, bytes) and rejects everything else. -/
inductive NameArg where
| bytes : Bytes → NameArg
| notBytes : NameArg
deriving DecidableEq, Repr

/-- Python slice name[-2:]: the last two elements (fewer if short). -/
def pyLastTwo (l : Bytes) : Bytes := l.drop (l.length - 2)

/-- ResTable_package_header from arsc/package.py: the stored name is the
given name padded with zero bytes to 256 bytes. -/
structure ResTable_package_header where
header : ResChunk_header
id : U32
name : Bytes
typeStrings : U32
lastPublicType : U32
keyStrings : U32
lastPublicKey : U32
deriving DecidableEq, Repr

/-- ResTable_package_header construction: validates the chunk type
first, then that the name is bytes, at most 256 bytes long (twice
MAX_NAME_LEN = 128) and ends with two zero bytes; the stored name is
padded with zero bytes to 256 bytes. -/
def ResTable_package_header.init (header : ResChunk_header) (id : U32) (name : NameArg)
    (typeStrings lastPublicType keyStrings lastPublicKey : U32) :
    Except Err ResTable_package_header :=
if header.type ≠ RES_TABLE_PACKAGE_TYPE then
  .error (.chunkHeaderWrongType [RES_TABLE_PACKAGE_TYPE] none)
else match name with
| .notBytes => .error .nameMustBeBytes
| .bytes nm =>
  if nm.length > 128 * 2 then .error (.nameTooLong nm.length 128)
  else if pyLastTwo nm ≠ [0, 0] then .error .nameNotNullTerminated
  else .ok ⟨header, id, nm ++ List.replicate (128 * 2 - nm.length) 0,
    typeStrings, lastPublicType, keyStrings, lastPublicKey⟩

/-- ResTable_package_header construction with the default header, a
RES_TABLE_PACKAGE_TYPE chunk of header size and size 0x120. -/
def ResTable_package_header.initDefault (id : U32) (name : NameArg)
    (typeStrings lastPublicType keyStrings lastPublicKey : U32) :
    Except Err ResTable_package_header :=
ResTable_package_header.init ⟨RES_TABLE_PACKAGE_TYPE, ⟨0x120, true⟩, ⟨0x120, true⟩⟩
  id name typeStrings lastPublicType keyStrings lastPublicKey

/-- ResTable_package_header bytes: the fixed fields followed by four
unconditional zero padding bytes. -/
def ResTable_package_header.bytes (v : ResTable_package_header) : Bytes :=
v.header.bytes ++ v.id.bytes ++ v.name ++ v.typeStrings.bytes ++ v.lastPublicType.bytes ++
  v.keyStrings.bytes ++ v.lastPublicKey.bytes ++ List.replicate 4 0

/-- ResTable_package_header.from_bytes: reads the fixed fields, takes
256 raw name bytes, and unconditionally skips four bytes at the end. -/
def ResTable_package_header.from_bytes (b : Bytes) : Except Err (ResTable_package_header × Bytes) := do
let (header, b) ← ResChunk_header.from_bytes b true
let (id, b) ← readU32 b true
let name := b.take 256
let b := b.drop 256
let (typeStrings, b) ← readU32 b true
let (lastPublicType, b) ← readU32 b true
let (keyStrings, b) ← readU32 b true
let (lastPublicKey, b) ← readU32 b true
let v ← ResTable_package_header.init header id (.bytes name) typeStrings lastPublicType
  keyStrings lastPublicKey
.ok (v, b.drop 4)

/-- One chunk of the TypeSpec and Type stream inside a package. -/
inductive PChunk where
| typeSpec : ResTable_typeSpec → PChunk
| type : ResTable_type → PChunk
deriving DecidableEq, Repr

def PChunk.bytes : PChunk → Bytes
| .typeSpec ts => ts.bytes
| .type ty => ty.bytes

/-- ResTable_package from arsc/package.py.  The types field is the list
of groups built by the scan loop; the final flush can append None, so
every group is optional. -/
structure ResTable_package where
header : ResTable_package_header
typeStrings : ResStringPool
keyStrings : ResStringPool
types : List (Option (List PChunk))
deriving DecidableEq, Repr

/-- Serializes the groups of a package in order; iterating a None group
is the TypeError Python would raise on bytes of such an object. -/
def flattenGroups : List (Option (List PChunk)) → Except Err Bytes
| [] => .ok []
| none :: _ => .error .noneNotIterable
| some g :: t => do
  let r ← flattenGroups t
  .ok ((g.map PChunk.bytes).flatten ++ r)

/-- ResTable_package bytes: header, type strings pool, key strings pool,
then every chunk of every group in stored order. -/
def ResTable_package.bytesE (v : ResTable_package) : Except Err Bytes := do
let types ← flattenGroups v.types
.ok (v.header.bytes ++ v.typeStrings.bytes ++ v.keyStrings.bytes ++ types)

/-- Appends the open group to the finished groups, as the scan loop does
before starting a new group (None means no group is open). -/
def flushSpec (types : List (Option (List PChunk))) (spec : Option (List PChunk)) :
    List (Option (List PChunk)) :=
match spec with
| none => types
| some s => types ++ [some s]

/-- The while loop of ResTable_package.from_bytes: peeks a chunk header
at the cursor; a TYPE_SPEC chunk flushes the open group and starts a new
one, a TYPE chunk is appended to the open group (an AttributeError when
none is open), and any other tag raises
ChunkHeaderWrongTypeException([TYPE_SPEC, TYPE], tag).  The loop runs
until the cursor is exhausted.  The fuel only bounds the recursion; fuel
equal to the buffer length always suffices because every successful
iteration consumes at least one byte. -/
def scanLoop : Nat → Bytes → List (Option (List PChunk)) → Option (List PChunk) →
    Except Err (List (Option (List PChunk)))
| _, [], types, spec => .ok (types ++ [spec])
| 0, _ :: _, _, _ => .error .fuelExhausted
| fuel + 1, b@(_ :: _), types, spec => do
  let (hdr, _) ← ResChunk_header.from_bytes b true
  if hdr.type = RES_TABLE_TYPE_SPEC_TYPE then do
    let types := flushSpec types spec
    let (ts, b) ← ResTable_typeSpec.from_bytes b true
    scanLoop fuel b types (some [.typeSpec ts])
  else if hdr.type = RES_TABLE_TYPE_TYPE then do
    let (ty, b) ← ResTable_type.from_bytes b true
    match spec with
    | none => .error .noneAppend
    | some s => scanLoop fuel b types (some (s ++ [.type ty]))
  else .error (.chunkHeaderWrongType [RES_TABLE_TYPE_SPEC_TYPE, RES_TABLE_TYPE_TYPE] (some hdr.type))

/-- ResTable_package.from_bytes: decodes the header, truncates to the
declared package size, decodes the two string pools at their recorded
offsets, resumes the chunk scan at whichever pool leftover is shorter,
and returns the bytes beyond the package as the remainder. -/
def ResTable_package.from_bytes (b : Bytes) (little : Bool) :
    Except Err (ResTable_package × Bytes) := do
let content := b
let (header, b) ← ResTable_package_header.from_bytes b
let contentSize := header.header.size.val
let contentT := content.take contentSize
let pastPkg := content.drop contentSize
let (typeStrings, at_) ← ResStringPool.from_bytes (contentT.drop header.typeStrings.val) true
let (keyStrings, ak) ← ResStringPool.from_bytes (contentT.drop header.keyStrings.val) true
let rest := if ak.length < at_.length then ak else at_
let types ← scanLoop rest.length rest [] none
.ok (⟨header, typeStrings, keyStrings, types⟩, pastPkg)

/-- ResTable from arsc/arsc.py: the top level container. -/
structure ResTable where
header : ResTable_header
values : ResStringPool
packages : List ResTable_package
deriving DecidableEq, Repr

/-- Serializes the packages of a table in list order. -/
def packagesBytes : List ResTable_package → Except Err Bytes
| [] => .ok []
| p :: t => do
  let a ← ResTable_package.bytesE p
  let r ← packagesBytes t
  .ok (a ++ r)

/-- ResTable bytes: header, values pool, then every package. -/
def ResTable.bytesE (v : ResTable) : Except Err Bytes := do
let pk ← packagesBytes v.packages
.ok (v.header.bytes ++ v.values.bytes ++ pk)

/-- The package loop of ResTable.from_bytes: packageCount sequential
package decodes, each consuming its own extent. -/
def packagesLoop : Nat → Bytes → Except Err (List ResTable_package × Bytes)
| 0, b => .ok ([], b)
| n + 1, b => do
  let (pkg, b) ← ResTable_package.from_bytes b true
  let (res, b) ← packagesLoop n b
  .ok (pkg :: res, b)

/-- ResTable.from_bytes: table header, global values pool, then exactly
packageCount packages.  The declared table size is never consulted. -/
def ResTable.from_bytes (b : Bytes) (little : Bool) : Except Err (ResTable × Bytes) := do
let (header, b) ← ResTable_header.from_bytes b true
let (values, b) ← ResStringPool.from_bytes b true
let (packages, b) ← packagesLoop header.packageCount.val b
.ok (⟨header, values, packages⟩, b)

/-! ## Canonical well-formedness predicates

A value is canonical when it looks exactly like the result of decoding a
well-formed buffer: all integers are in range and little endian, counts
match list lengths, offsets record the canonical physical layout, and
declared sizes equal the byte length of the encoding.  A buffer is
well-formed exactly when it is the encoding of a canonical value
followed by arbitrary trailing bytes. -/

abbrev U8.canon (u : U8) : Prop := u.val < 256

abbrev U16.canon (u : U16) : Prop := u.val < 65536 ∧ u.little = true

abbrev U32.canon (u : U32) : Prop := u.val < 4294967296 ∧ u.little = true

abbrev ResChunk_header.canon (v : ResChunk_header) : Prop :=
v.type < 65536 ∧ v.headerSize.canon ∧ v.size.canon

abbrev ResTable_header.canon (v : ResTable_header) : Prop :=
v.header.canon ∧ v.header.type = RES_TABLE_TYPE ∧ v.packageCount.canon

abbrev ResStringPool_header.canon (v : ResStringPool_header) : Prop :=
v.header.canon ∧ v.header.type = RES_STRING_POOL_TYPE ∧ v.stringCount.canon ∧
  v.styleCount.canon ∧ v.flags < 4294967296 ∧ v.stringsStart.canon ∧ v.stylesStart.canon

/-- The running offsets of a list of blob lengths, starting at acc. -/
def cumOffsets : Nat → List Nat → List Nat
| _, [] => []
| acc, l :: ls => acc :: cumOffsets (acc + l) ls

/-- Total length of a list of blobs. -/
def sumLens (l : List Bytes) : Nat := (l.map List.length).sum

abbrev ResStringPool.canon (v : ResStringPool) : Prop :=
v.header.canon ∧
v.header.header.headerSize.val = 28 ∧
v.strrefs.length = v.header.stringCount.val ∧
v.strings.length = v.header.stringCount.val ∧
v.stylerefs.length = v.header.styleCount.val ∧
v.styles.length = v.header.styleCount.val ∧
(∀ u ∈ v.strrefs, u.canon) ∧
(∀ u ∈ v.stylerefs, u.canon) ∧
v.strrefs.map U32.val = cumOffsets 0 (v.strings.map List.length) ∧
v.stylerefs.map U32.val = cumOffsets 0 (v.styles.map List.length) ∧
(v.header.stringCount.val = 0 ∨ v.header.styleCount.val = 0) ∧
(v.header.stringCount.val = 0 ∨
  v.header.stringsStart.val = 28 + 4 * (v.strrefs.length + v.stylerefs.length)) ∧
(v.header.styleCount.val = 0 ∨
  v.header.stylesStart.val = 28 + 4 * (v.strrefs.length + v.stylerefs.length) + sumLens v.strings) ∧
v.header.header.size.val =
  28 + 4 * (v.strrefs.length + v.stylerefs.length) + sumLens v.strings + sumLens v.styles

abbrev ResTable_config.canon (v : ResTable_config) : Prop :=
v.size.canon ∧ v.size.val = 4 + v.notimpl.length

abbrev ResTable_typeSpec_header.canon (v : ResTable_typeSpec_header) : Prop :=
v.header.canon ∧ v.header.type = RES_TABLE_TYPE_SPEC_TYPE ∧ v.id.canon ∧ v.res0.canon ∧
  v.res1.canon ∧ v.entryCount.canon

abbrev ResTable_typeSpec.canon (v : ResTable_typeSpec) : Prop :=
v.header.canon ∧ v.header.header.headerSize.val = 16 ∧
  v.header.header.size.val = 16 + v.configs.length

abbrev ResTable_type_header.canon (v : ResTable_type_header) : Prop :=
v.header.canon ∧ v.header.type = RES_TABLE_TYPE_TYPE ∧ v.id.canon ∧ v.res0.canon ∧
  v.res1.canon ∧ v.entryCount.canon ∧ v.entriesStart.canon ∧ v.config.canon

abbrev ResTable_type.canon (v : ResTable_type) : Prop :=
v.header.canon ∧ v.header.header.headerSize.val = 20 + v.header.config.size.val ∧
  v.header.header.size.val = v.header.header.headerSize.val + v.rest.length

abbrev ResTable_package_header.canon (v : ResTable_package_header) : Prop :=
v.header.canon ∧ v.header.type = RES_TABLE_PACKAGE_TYPE ∧ v.header.headerSize.val = 288 ∧
  v.id.canon ∧ v.name.length = 256 ∧ pyLastTwo v.name = [0, 0] ∧ v.typeStrings.canon ∧
  v.lastPublicType.canon ∧ v.keyStrings.canon ∧ v.lastPublicKey.canon

/-- A canonical chunk of the scan stream. -/
def PChunk.canon : PChunk → Prop
| .typeSpec ts => ts.canon
| .type ty => ty.canon

/-- A chunk that a group tail may contain: a canonical Type chunk. -/
def isTypeChunk : PChunk → Prop
| .type ty => ty.canon
| _ => False

/-- A canonical group: one canonical TypeSpec followed by canonical Type
chunks. -/
def canonGroup : List PChunk → Prop
| .typeSpec ts :: rest => ts.canon ∧ ∀ c ∈ rest, isTypeChunk c
| _ => False

/-- Byte length of the serialized groups (None groups contribute
nothing; canonical packages have no None group). -/
def typesFlatLen : List (Option (List PChunk)) → Nat
| [] => 0
| none :: t => typesFlatLen t
| some g :: t => (g.map (fun c => c.bytes.length)).sum + typesFlatLen t

abbrev ResTable_package.canon (v : ResTable_package) : Prop :=
v.header.canon ∧
v.typeStrings.canon ∧
v.keyStrings.canon ∧
v.header.typeStrings.val = 288 ∧
v.header.keyStrings.val = 288 + v.typeStrings.bytes.length ∧
v.types ≠ [] ∧
(∀ o ∈ v.types, ∃ g, o = some g ∧ canonGroup g) ∧
v.header.header.size.val =
  288 + v.typeStrings.bytes.length + v.keyStrings.bytes.length + typesFlatLen v.types

abbrev ResTable.canon (v : ResTable) : Prop :=
v.header.canon ∧ v.values.canon ∧ (∀ p ∈ v.packages, p.canon) ∧
  v.header.packageCount.val = v.packages.length

/-! ## Basic lemmas about bytes, slices and the integer codecs -/

@[simp]
theorem bindOk {α β : Type} (a : α) (f : α → Except Err β) :
    (Except.ok a : Except Err α) >>= f = f a := rfl

@[simp]
theorem bindErr {α β : Type} (e : Err) (f : α → Except Err β) :
    (Except.error e : Except Err α) >>= f = .error e := rfl

theorem takeLen (l1 l2 : List Nat) : (l1 ++ l2).take l1.length = l1 := by
  induction l1 with
  | nil => rfl
  | cons a t ih => simp [List.take, ih]

theorem dropLen (l1 l2 : List Nat) : (l1 ++ l2).drop l1.length = l2 := by
  induction l1 with
  | nil => rfl
  | cons a t ih => simp [List.drop, ih]

theorem takeLenOf {n : Nat} (l1 l2 : List Nat) (h : l1.length = n) :
    (l1 ++ l2).take n = l1 := by
  subst h; exact takeLen l1 l2

theorem dropLenOf {n : Nat} (l1 l2 : List Nat) (h : l1.length = n) :
    (l1 ++ l2).drop n = l2 := by
  subst h; exact dropLen l1 l2

theorem pyTake_ofNat (b : Bytes) (n : Nat) : pyTake b (n : Int) = b.take n := by
  simp [pyTake]

theorem pyDrop_ofNat (b : Bytes) (n : Nat) : pyDrop b (n : Int) = b.drop n := by
  simp [pyDrop]

theorem pyDrop_length_le (b : Bytes) (i : Int) : (pyDrop b i).length ≤ b.length := by
  unfold pyDrop
  split <;> simp

theorem natToLe_length (w v : Nat) : (natToLe w v).length = w := by
  induction w generalizing v with
  | zero => rfl
  | succ w ih => simp [natToLe, ih]

theorem leToNat_natToLe (w v : Nat) (h : v < 256 ^ w) : leToNat (natToLe w v) = v := by
  induction w generalizing v with
  | zero =>
    simp [natToLe, leToNat]
    omega
  | succ w ih =>
    have hdiv : v / 256 < 256 ^ w := by
      rw [Nat.div_lt_iff_lt_mul (by norm_num)]
      calc v < 256 ^ (w + 1) := h
      _ = 256 ^ w * 256 := by ring
    simp [natToLe, leToNat, ih (v / 256) hdiv]
    omega

/-! Reader round trips: reading the encoding of a canonical value
returns the value and the untouched remainder. -/

theorem readU8_rt (u : U8) (rest : Bytes) (h : u.canon) :
    readU8 (u.bytes ++ rest) = .ok (u, rest) := by
  obtain ⟨v⟩ := u
  simp only [U8.canon] at h
  simp [U8.bytes, readU8, Nat.mod_eq_of_lt h]

theorem readU16_rt (u : U16) (rest : Bytes) (h : u.canon) :
    readU16 (u.bytes ++ rest) true = .ok (u, rest) := by
  obtain ⟨v, little⟩ := u
  obtain ⟨hv, hl⟩ := h
  simp only at hv
  subst hl
  have hlen : (natToLe 2 v).length = 2 := natToLe_length 2 v
  have h2 : ¬((natToLe 2 v).length + rest.length < 2) := by rw [hlen]; omega
  simp [U16.bytes, readU16, List.length_append, h2, takeLenOf _ rest hlen,
    dropLenOf _ rest hlen, leToNat_natToLe 2 v (by norm_num; omega)]

theorem readU32_rt (u : U32) (rest : Bytes) (h : u.canon) :
    readU32 (u.bytes ++ rest) true = .ok (u, rest) := by
  obtain ⟨v, little⟩ := u
  obtain ⟨hv, hl⟩ := h
  simp only at hv
  subst hl
  have hlen : (natToLe 4 v).length = 4 := natToLe_length 4 v
  have h2 : ¬((natToLe 4 v).length + rest.length < 4) := by rw [hlen]; omega
  simp [U32.bytes, readU32, List.length_append, h2, takeLenOf _ rest hlen,
    dropLenOf _ rest hlen, leToNat_natToLe 4 v (by norm_num; omega)]

theorem rtype_rt (t : Nat) (rest : Bytes) (h : t < 65536) :
    ResourceType.from_bytes ((ResourceType.bytes t).reverse ++ rest) true = .ok (t, rest) := by
  have hlen : (natToLe 2 t).length = 2 := natToLe_length 2 t
  have h2 : ¬((natToLe 2 t).length + rest.length < 2) := by rw [hlen]; omega
  have hval : leToNat (natToLe 2 t) = t := leToNat_natToLe 2 t (by norm_num; omega)
  simp [ResourceType.bytes, ResourceType.from_bytes, List.length_append, h2,
    takeLenOf _ rest hlen, dropLenOf _ rest hlen, hval]

theorem flags_rt (f : Nat) (rest : Bytes) (h : f < 4294967296) :
    Flags.from_bytes ((Flags.bytes f).reverse ++ rest) true = .ok (f, rest) := by
  have hlen : (natToLe 4 f).length = 4 := natToLe_length 4 f
  have h2 : ¬((natToLe 4 f).length + rest.length < 4) := by rw [hlen]; omega
  have hval : leToNat (natToLe 4 f) = f := leToNat_natToLe 4 f (by norm_num; omega)
  simp [Flags.bytes, Flags.from_bytes, List.length_append, h2,
    takeLenOf _ rest hlen, dropLenOf _ rest hlen, hval]

/-! ## Round trips of the fixed layout headers -/

theorem chunk_rt (v : ResChunk_header) (rest : Bytes) (little : Bool) (h : v.canon) :
    ResChunk_header.from_bytes (v.bytes ++ rest) little = .ok (v, rest) := by
  obtain ⟨t, hs, sz⟩ := v
  obtain ⟨ht, hhs, hsz⟩ := h
  simp only [ResChunk_header.bytes, ResChunk_header.from_bytes, List.append_assoc]
  rw [rtype_rt t _ ht]
  simp only [bindOk]
  rw [readU16_rt hs _ hhs]
  simp only [bindOk]
  rw [readU32_rt sz _ hsz]
  simp only [bindOk]

theorem table_header_rt (v : ResTable_header) (rest : Bytes) (little : Bool) (h : v.canon) :
    ResTable_header.from_bytes (v.bytes ++ rest) little = .ok (v, rest) := by
  obtain ⟨ch, pc⟩ := v
  obtain ⟨hch, hty, hpc⟩ := h
  simp only at hch hty hpc
  simp only [ResTable_header.bytes, ResTable_header.from_bytes, List.append_assoc]
  rw [chunk_rt ch _ true hch]
  simp only [bindOk]
  rw [readU32_rt pc _ hpc]
  simp only [bindOk]
  simp [ResTable_header.init, hty]

theorem pool_header_rt (v : ResStringPool_header) (rest : Bytes) (little : Bool) (h : v.canon) :
    ResStringPool_header.from_bytes (v.bytes ++ rest) little = .ok (v, rest) := by
  obtain ⟨ch, n, m, fl, ss, ts⟩ := v
  obtain ⟨hch, hty, hn, hm, hfl, hss, hts⟩ := h
  simp only at hch hty hn hm hfl hss hts
  simp only [ResStringPool_header.bytes, ResStringPool_header.from_bytes, List.append_assoc]
  rw [chunk_rt ch _ true hch]
  simp only [bindOk]
  rw [readU32_rt n _ hn]
  simp only [bindOk]
  rw [readU32_rt m _ hm]
  simp only [bindOk]
  rw [flags_rt fl _ hfl]
  simp only [bindOk]
  rw [readU32_rt ss _ hss]
  simp only [bindOk]
  rw [readU32_rt ts _ hts]
  simp only [bindOk]
  simp [ResStringPool_header.init, hty]

theorem config_rt (v : ResTable_config) (rest : Bytes) (h : v.canon) :
    ResTable_config.from_bytes (v.bytes ++ rest) = .ok (v, rest) := by
  obtain ⟨sz, ni⟩ := v
  obtain ⟨hsz, hlen⟩ := h
  simp only at hlen
  simp only [ResTable_config.bytes, ResTable_config.from_bytes, List.append_assoc]
  rw [readU32_rt sz _ hsz]
  simp only [bindOk]
  have hr : ((sz.val : Int) - 4) = (ni.length : Int) := by omega
  rw [hr, pyTake_ofNat, pyDrop_ofNat, takeLen, dropLen]

theorem typeSpec_header_rt (v : ResTable_typeSpec_header) (rest : Bytes) (little : Bool)
    (h : v.canon) : ResTable_typeSpec_header.from_bytes (v.bytes ++ rest) little = .ok (v, rest) := by
  obtain ⟨ch, id, r0, r1, ec⟩ := v
  obtain ⟨hch, hty, hid, hr0, hr1, hec⟩ := h
  simp only at hch hty hid hr0 hr1 hec
  simp only [ResTable_typeSpec_header.bytes, ResTable_typeSpec_header.from_bytes, List.append_assoc]
  rw [chunk_rt ch _ true hch]
  simp only [bindOk]
  rw [readU8_rt id _ hid]
  simp only [bindOk]
  rw [readU8_rt r0 _ hr0]
  simp only [bindOk]
  rw [readU16_rt r1 _ hr1]
  simp only [bindOk]
  rw [readU32_rt ec _ hec]
  simp only [bindOk]
  simp [ResTable_typeSpec_header.init, hty]

theorem chunk_bytes_len (v : ResChunk_header) (h : v.canon) : v.bytes.length = 8 := by
  obtain ⟨t, ⟨hsv, hsl⟩, ⟨szv, szl⟩⟩ := v
  obtain ⟨ht, ⟨h1, h2⟩, ⟨h3, h4⟩⟩ := h
  simp only at h2 h4
  subst h2 h4
  simp [ResChunk_header.bytes, ResourceType.bytes, U16.bytes, U32.bytes, natToLe_length]

theorem typeSpec_header_bytes_len (v : ResTable_typeSpec_header) (h : v.canon) :
    v.bytes.length = 16 := by
  obtain ⟨ch, id, ⟨r0v⟩, ⟨r1v, r1l⟩, ⟨ecv, ecl⟩⟩ := v
  obtain ⟨hch, hty, hid, hr0, ⟨hr1a, hr1b⟩, ⟨heca, hecb⟩⟩ := h
  simp only at hr1b hecb
  subst hr1b hecb
  have h8 := chunk_bytes_len ch hch
  simp [ResTable_typeSpec_header.bytes, U8.bytes, U16.bytes, U32.bytes, natToLe_length, h8]

theorem typeSpec_rt (v : ResTable_typeSpec) (rest : Bytes) (little : Bool) (h : v.canon) :
    ResTable_typeSpec.from_bytes (v.bytes ++ rest) little = .ok (v, rest) := by
  obtain ⟨hd, cfg⟩ := v
  obtain ⟨hhd, hhs, hsz⟩ := h
  simp only at hhs hsz
  simp only [ResTable_typeSpec.bytes, ResTable_typeSpec.from_bytes, List.append_assoc]
  rw [typeSpec_header_rt hd _ true hhd]
  simp only [bindOk]
  have hr : ((hd.header.size.val : Int) - (hd.header.headerSize.val : Int)) = (cfg.length : Int) := by
    omega
  rw [hr, pyTake_ofNat, pyDrop_ofNat, takeLen, dropLen]

theorem type_header_rt (v : ResTable_type_header) (rest : Bytes) (little : Bool)
    (h : v.canon) : ResTable_type_header.from_bytes (v.bytes ++ rest) little = .ok (v, rest) := by
  obtain ⟨ch, id, r0, r1, ec, es, cfg⟩ := v
  obtain ⟨hch, hty, hid, hr0, hr1, hec, hes, hcfg⟩ := h
  simp only at hch hty hid hr0 hr1 hec hes hcfg
  simp only [ResTable_type_header.bytes, ResTable_type_header.from_bytes, List.append_assoc]
  rw [chunk_rt ch _ true hch]
  simp only [bindOk]
  rw [readU8_rt id _ hid]
  simp only [bindOk]
  rw [readU8_rt r0 _ hr0]
  simp only [bindOk]
  rw [readU16_rt r1 _ hr1]
  simp only [bindOk]
  rw [readU32_rt ec _ hec]
  simp only [bindOk]
  rw [readU32_rt es _ hes]
  simp only [bindOk]
  rw [config_rt cfg _ hcfg]
  simp only [bindOk]
  simp [ResTable_type_header.init, hty]

theorem config_bytes_len (v : ResTable_config) (h : v.canon) :
    v.bytes.length = v.size.val := by
  obtain ⟨⟨szv, szl⟩, ni⟩ := v
  obtain ⟨⟨h1, h2⟩, h3⟩ := h
  simp only at h2 h3
  subst h2
  simp [ResTable_config.bytes, U32.bytes, natToLe_length]
  omega

theorem type_header_bytes_len (v : ResTable_type_header) (h : v.canon) :
    v.bytes.length = 20 + v.config.size.val := by
  obtain ⟨ch, id, ⟨r0v⟩, ⟨r1v, r1l⟩, ⟨ecv, ecl⟩, ⟨esv, esl⟩, cfg⟩ := v
  obtain ⟨hch, hty, hid, hr0, ⟨hr1a, hr1b⟩, ⟨heca, hecb⟩, ⟨hesa, hesb⟩, hcfg⟩ := h
  simp only at hr1b hecb hesb
  subst hr1b hecb hesb
  have h8 := chunk_bytes_len ch hch
  have hc := config_bytes_len cfg hcfg
  simp [ResTable_type_header.bytes, U8.bytes, U16.bytes, U32.bytes, natToLe_length, h8, hc]
  omega

theorem type_rt (v : ResTable_type) (rest : Bytes) (little : Bool) (h : v.canon) :
    ResTable_type.from_bytes (v.bytes ++ rest) little = .ok (v, rest) := by
  obtain ⟨hd, body⟩ := v
  obtain ⟨hhd, hhs, hsz⟩ := h
  simp only at hhs hsz
  simp only [ResTable_type.bytes, ResTable_type.from_bytes, List.append_assoc]
  rw [type_header_rt hd _ true hhd]
  simp only [bindOk]
  have hr : ((hd.header.size.val : Int) - (hd.header.headerSize.val : Int)) = (body.length : Int) := by
    omega
  rw [hr, pyTake_ofNat, pyDrop_ofNat, takeLen, dropLen]

theorem pkg_header_rt (v : ResTable_package_header) (rest : Bytes) (h : v.canon) :
    ResTable_package_header.from_bytes (v.bytes ++ rest) = .ok (v, rest) := by
  obtain ⟨ch, id, nm, ts, lpt, ks, lpk⟩ := v
  obtain ⟨hch, hty, hhs, hid, hnm, hnt, hts, hlpt, hks, hlpk⟩ := h
  simp only at hch hty hhs hid hnm hnt hts hlpt hks hlpk
  simp only [ResTable_package_header.bytes, ResTable_package_header.from_bytes, List.append_assoc]
  rw [chunk_rt ch _ true hch]
  simp only [bindOk]
  rw [readU32_rt id _ hid]
  simp only [bindOk]
  rw [takeLenOf nm _ hnm, dropLenOf nm _ hnm]
  rw [readU32_rt ts _ hts]
  simp only [bindOk]
  rw [readU32_rt lpt _ hlpt]
  simp only [bindOk]
  rw [readU32_rt ks _ hks]
  simp only [bindOk]
  rw [readU32_rt lpk _ hlpk]
  simp only [bindOk]
  simp only [ResTable_package_header.init, hty]
  rw [if_neg (by simp)]
  rw [if_neg (by simp [hnm]), if_neg (by simp [hnt])]
  have hdrop : (List.replicate 4 0 ++ rest : Bytes).drop 4 = rest :=
    dropLenOf _ _ (List.length_replicate 4 0)
  simp [hnm, hdrop]

/-! ## String pool support lemmas -/

theorem u32bytes_len (u : U32) : (U32.bytes u).length = 4 := by
  cases u with
  | mk v little =>
    unfold U32.bytes
    split <;> simp [natToLe_length]

theorem joinU32_len (l : List U32) : ((l.map U32.bytes).flatten).length = l.length * 4 := by
  induction l with
  | nil => simp
  | cons a t ih =>
    simp only [List.map_cons, List.flatten_cons, List.length_append, List.length_cons, ih,
      u32bytes_len]
    omega

theorem flatten_len (l : List Bytes) : l.flatten.length = sumLens l := by
  induction l with
  | nil => simp [sumLens]
  | cons a t ih =>
    simp only [List.flatten_cons, List.length_append, sumLens, List.map_cons, List.sum_cons] at ih ⊢
    omega

theorem map_setLittle (l : List U32) (h : ∀ u ∈ l, u.little = true) :
    l.map setLittle = l := by
  induction l with
  | nil => rfl
  | cons a t ih =>
    have ha : a.little = true := h a (by simp)
    cases a with
    | mk v little =>
      simp only at ha
      subst ha
      simp [setLittle, ih (fun u hu => h u (by simp [hu]))]

theorem splitFixed_rt (l : List U32) (h : ∀ u ∈ l, u.canon) :
    splitFixedU32 ((l.map U32.bytes).flatten) l.length = .ok (l, []) := by
  induction l with
  | nil => rfl
  | cons a t ih =>
    have ha : a.canon := h a (by simp)
    simp only [List.map_cons, List.flatten_cons, List.length_cons, splitFixedU32]
    rw [readU32_rt a _ ha]
    simp only [bindOk]
    rw [ih (fun u hu => h u (by simp [hu]))]
    rfl

theorem splitVar_flatten (strs : List Bytes) :
    splitVarStrings strs.flatten (strs.map (fun s => (s.length : Int))) = strs := by
  induction strs with
  | nil => rfl
  | cons a t ih =>
    simp only [List.flatten_cons, List.map_cons, splitVarStrings]
    rw [pyTake_ofNat, pyDrop_ofNat, takeLen, dropLen, ih]

theorem offsets_diffs (strs : List Bytes) : ∀ (acc : Nat) (u : List U32) (w : U32),
    u.map U32.val = cumOffsets acc (strs.map List.length) → w.val = acc + sumLens strs →
    offsetsToLength (u ++ [w]) = strs.map (fun s => (s.length : Int)) := by
  induction strs with
  | nil =>
    intro acc u w hu hw
    have hu0 : u = [] := by
      cases u with
      | nil => rfl
      | cons a t => simp [cumOffsets] at hu
    subst hu0
    rfl
  | cons sh st ih =>
    intro acc u w hu hw
    cases u with
    | nil => simp [cumOffsets] at hu
    | cons u0 u1 =>
      simp only [List.map_cons, cumOffsets, List.cons.injEq] at hu
      obtain ⟨hu0, hu1⟩ := hu
      cases st with
      | nil =>
        have hu10 : u1 = [] := by
          cases u1 with
          | nil => rfl
          | cons a t => simp [cumOffsets] at hu1
        subst hu10
        simp only [List.cons_append, List.nil_append, offsetsToLength, List.map_cons,
          List.map_nil, List.cons.injEq]
        refine ⟨?_, by trivial⟩
        simp [sumLens] at hw
        omega
      | cons s2 st2 =>
        cases u1 with
        | nil => simp [cumOffsets] at hu1
        | cons u2 u3 =>
          have hu2 : u2.val = acc + sh.length := by
            simp [cumOffsets] at hu1
            exact hu1.1
          have step : offsetsToLength ((u0 :: u2 :: u3) ++ [w]) =
              ((u2.val : Int) - (u0.val : Int)) :: offsetsToLength ((u2 :: u3) ++ [w]) := rfl
          rw [step]
          have htail : offsetsToLength ((u2 :: u3) ++ [w]) =
              (s2 :: st2).map (fun s => (s.length : Int)) := by
            apply ih (acc + sh.length) (u2 :: u3) w
            · simp only [List.map_cons] at hu1 ⊢
              exact hu1
            · simp [sumLens] at hw ⊢
              omega
          rw [htail]
          simp [hu0, hu2]

theorem pool_header_bytes_len (v : ResStringPool_header) (h : v.canon) :
    v.bytes.length = 28 := by
  obtain ⟨ch, ⟨nv, nl⟩, ⟨mv, ml⟩, fl, ⟨ssv, ssl⟩, ⟨tsv, tsl⟩⟩ := v
  obtain ⟨hch, hty, ⟨h1, h2⟩, ⟨h3, h4⟩, h5, ⟨h6, h7⟩, ⟨h8, h9⟩⟩ := h
  simp only at h2 h4 h7 h9
  subst h2 h4 h7 h9
  have h8l := chunk_bytes_len ch hch
  simp [ResStringPool_header.bytes, U32.bytes, Flags.bytes, natToLe_length, h8l]

theorem pool_bytes_len (v : ResStringPool) (h : v.canon) :
    v.bytes.length = v.header.header.size.val := by
  obtain ⟨hdr, refs, srefs, strs, stys⟩ := v
  obtain ⟨hhdr, hhs, hrl, hsl, hyl, hstl, hrc, hyc, hcum, hycum, hnm, hss, hys, hsz⟩ := h
  simp only at hhdr hhs hrl hsl hyl hstl hrc hyc hcum hycum hnm hss hys hsz
  have hh := pool_header_bytes_len hdr hhdr
  simp only [ResStringPool.bytes, List.length_append]
  rw [hh, joinU32_len refs, joinU32_len srefs, flatten_len strs, flatten_len stys, hsz]
  omega

theorem pool_rt (v : ResStringPool) (rest : Bytes) (little : Bool) (h : v.canon) :
    ResStringPool.from_bytes (v.bytes ++ rest) little = .ok (v, rest) := by
  obtain ⟨hdr, refs, srefs, strs, stys⟩ := v
  obtain ⟨hhdr, hhs, hrl, hsl, hyl, hstl, hrc, hyc, hcum, hycum, hnm, hss, hys, hsz⟩ := h
  simp only at hhdr hhs hrl hsl hyl hstl hrc hyc hcum hycum hnm hss hys hsz
  have hhb := pool_header_bytes_len hdr hhdr
  have hbl : (ResStringPool.bytes ⟨hdr, refs, srefs, strs, stys⟩).length = hdr.header.size.val :=
    pool_bytes_len _ ⟨hhdr, hhs, hrl, hsl, hyl, hstl, hrc, hyc, hcum, hycum, hnm, hss, hys, hsz⟩
  simp only [ResStringPool.bytes] at hbl
  simp only [ResStringPool.bytes, ResStringPool.from_bytes, List.append_assoc]
  rw [pool_header_rt hdr _ true hhdr]
  simp only [bindOk]
  have htake := takeLenOf (hdr.bytes ++ (refs.map U32.bytes).flatten ++
    (srefs.map U32.bytes).flatten ++ strs.flatten ++ stys.flatten) rest hbl
  have hdropR := dropLenOf (hdr.bytes ++ (refs.map U32.bytes).flatten ++
    (srefs.map U32.bytes).flatten ++ strs.flatten ++ stys.flatten) rest hbl
  simp only [List.append_assoc] at htake hdropR
  rw [htake, hdropR]
  by_cases hn : hdr.stringCount.val = 0
  · have hrefs : refs = [] := List.length_eq_zero.mp (by omega)
    have hstrs : strs = [] := List.length_eq_zero.mp (by omega)
    subst hrefs hstrs
    simp only [List.map_nil, List.flatten_nil, List.nil_append, hn, Nat.zero_mul,
      Nat.lt_irrefl, if_false, gt_iff_lt]
    by_cases hm : hdr.styleCount.val = 0
    · have hsrefs : srefs = [] := List.length_eq_zero.mp (by omega)
      have hstys : stys = [] := List.length_eq_zero.mp (by omega)
      subst hsrefs hstys
      simp [splitFixedU32, hn, hm, offsetsToLength, splitVarStrings, ResStringPool.init]
    · have hmpos : 0 < hdr.styleCount.val * 4 := by omega
      rw [if_pos hmpos]
      have hsb := takeLenOf ((srefs.map U32.bytes).flatten) (stys.flatten ++ rest)
        (show ((srefs.map U32.bytes).flatten).length = hdr.styleCount.val * 4 by
          rw [joinU32_len]; omega)
      simp only [List.append_assoc] at hsb
      rw [hsb]
      have hys2 : hdr.stylesStart.val = 28 + 4 * srefs.length := by
        rcases hys with hy0 | hy1
        · omega
        · simp [sumLens] at hy1
          omega
      have hstyB := dropLenOf (hdr.bytes ++ (srefs.map U32.bytes).flatten) stys.flatten
        (show (hdr.bytes ++ (srefs.map U32.bytes).flatten).length = 28 + 4 * srefs.length by
          simp only [List.length_append]; rw [hhb, joinU32_len]; omega)
      simp only [List.append_assoc] at hstyB
      rw [hys2, hstyB]
      simp only [splitFixedU32, hn, bindOk]
      have hsplit : splitFixedU32 ((srefs.map U32.bytes).flatten) hdr.styleCount.val =
          .ok (srefs, []) := by
        rw [← hyl]
        exact splitFixed_rt srefs hyc
      rw [hsplit]
      simp only [bindOk, List.length_nil, Nat.lt_irrefl, if_false, gt_iff_lt]
      have hdiffs : offsetsToLength (srefs ++ [⟨stys.flatten.length, false⟩]) =
          stys.map (fun s => (s.length : Int)) := by
        apply offsets_diffs stys 0 srefs
        · simpa using hycum
        · simp [flatten_len, sumLens]
      simp only [offsetsToLength, splitVarStrings, hdiffs, splitVar_flatten]
      simp [ResStringPool.init]
  · have hm : hdr.styleCount.val = 0 := by
      rcases hnm with h0 | h0
      · exact absurd h0 hn
      · exact h0
    have hsrefs : srefs = [] := List.length_eq_zero.mp (by omega)
    have hstys : stys = [] := List.length_eq_zero.mp (by omega)
    subst hsrefs hstys
    simp only [List.map_nil, List.flatten_nil, List.nil_append, List.append_nil, hm,
      Nat.zero_mul, Nat.lt_irrefl, if_false, gt_iff_lt]
    have hnpos : 0 < hdr.stringCount.val * 4 := by omega
    rw [if_pos hnpos]
    have hrb := takeLenOf ((refs.map U32.bytes).flatten) (strs.flatten ++ rest)
      (show ((refs.map U32.bytes).flatten).length = hdr.stringCount.val * 4 by
        rw [joinU32_len]; omega)
    simp only [List.append_assoc] at hrb
    rw [hrb]
    have hss2 : hdr.stringsStart.val = 28 + 4 * refs.length := by
      rcases hss with h0 | h1
      · exact absurd h0 hn
      · omega
    have hstrB := dropLenOf (hdr.bytes ++ (refs.map U32.bytes).flatten) strs.flatten
      (show (hdr.bytes ++ (refs.map U32.bytes).flatten).length = 28 + 4 * refs.length by
        simp only [List.length_append]; rw [hhb, joinU32_len]; omega)
    simp only [List.append_assoc] at hstrB
    rw [hss2, hstrB]
    have hsplit : splitFixedU32 ((refs.map U32.bytes).flatten) hdr.stringCount.val =
        .ok (refs, []) := by
      rw [← hrl]
      exact splitFixed_rt refs hrc
    rw [hsplit]
    simp only [bindOk, List.length_nil, Nat.lt_irrefl, if_false, gt_iff_lt]
    simp only [splitFixedU32, hm, bindOk]
    have hdiffs : offsetsToLength (refs ++ [⟨strs.flatten.length, false⟩]) =
        strs.map (fun s => (s.length : Int)) := by
      apply offsets_diffs strs 0 refs
      · simpa using hcum
      · simp [flatten_len, sumLens]
    simp only [offsetsToLength, splitVarStrings, hdiffs, splitVar_flatten]
    simp [ResStringPool.init, map_setLittle refs (fun u hu => (hrc u hu).2)]

/-! ## Consumption lemmas: how many bytes each successful decode eats -/

theorem readU8_c {b : Bytes} {u b1} (h : readU8 b = .ok (u, b1)) :
    b1 = b.drop 1 ∧ 1 ≤ b.length := by
  cases b with
  | nil => cases h
  | cons x t =>
    simp only [readU8, Except.ok.injEq, Prod.mk.injEq] at h
    exact ⟨h.2.symm, by simp⟩

theorem readU16_c {b : Bytes} {little u b1} (h : readU16 b little = .ok (u, b1)) :
    b1 = b.drop 2 ∧ 2 ≤ b.length := by
  unfold readU16 at h
  by_cases hc : b.length < 2
  · rw [if_pos hc] at h; cases h
  · rw [if_neg hc] at h
    simp only [Except.ok.injEq, Prod.mk.injEq] at h
    exact ⟨h.2.symm, by omega⟩

theorem readU32_c {b : Bytes} {little u b1} (h : readU32 b little = .ok (u, b1)) :
    b1 = b.drop 4 ∧ 4 ≤ b.length := by
  unfold readU32 at h
  by_cases hc : b.length < 4
  · rw [if_pos hc] at h; cases h
  · rw [if_neg hc] at h
    simp only [Except.ok.injEq, Prod.mk.injEq] at h
    exact ⟨h.2.symm, by omega⟩

theorem rtype_c {b : Bytes} {little t b1} (h : ResourceType.from_bytes b little = .ok (t, b1)) :
    b1 = b.drop 2 ∧ 2 ≤ b.length := by
  unfold ResourceType.from_bytes at h
  by_cases hc : b.length < 2
  · rw [if_pos hc] at h; cases h
  · rw [if_neg hc] at h
    simp only [Except.ok.injEq, Prod.mk.injEq] at h
    exact ⟨h.2.symm, by omega⟩

theorem flags_c {b : Bytes} {little f b1} (h : Flags.from_bytes b little = .ok (f, b1)) :
    b1 = b.drop 4 ∧ 4 ≤ b.length := by
  unfold Flags.from_bytes at h
  by_cases hc : b.length < 4
  · rw [if_pos hc] at h; cases h
  · rw [if_neg hc] at h
    simp only [Except.ok.injEq, Prod.mk.injEq] at h
    exact ⟨h.2.symm, by omega⟩

theorem chunk_c {b : Bytes} {little v b1} (h : ResChunk_header.from_bytes b little = .ok (v, b1)) :
    b1 = b.drop 8 ∧ 8 ≤ b.length := by
  unfold ResChunk_header.from_bytes at h
  cases h1 : ResourceType.from_bytes b true with
  | error e => rw [h1] at h; cases h
  | ok p =>
    obtain ⟨t, b2⟩ := p
    rw [h1] at h
    simp only [bindOk] at h
    cases h2 : readU16 b2 true with
    | error e => rw [h2] at h; cases h
    | ok q =>
      obtain ⟨hs, b3⟩ := q
      rw [h2] at h
      simp only [bindOk] at h
      cases h3 : readU32 b3 true with
      | error e => rw [h3] at h; cases h
      | ok r =>
        obtain ⟨sz, b4⟩ := r
        rw [h3] at h
        simp only [bindOk, Except.ok.injEq, Prod.mk.injEq] at h
        obtain ⟨c1, hc1⟩ := rtype_c h1
        obtain ⟨c2, hc2⟩ := readU16_c h2
        obtain ⟨c3, hc3⟩ := readU32_c h3
        subst c1 c2 c3
        refine ⟨?_, ?_⟩
        · rw [← h.2]
          simp [List.drop_drop]
        · simp [List.length_drop] at hc2 hc3
          omega

theorem config_c {b : Bytes} {v b1} (h : ResTable_config.from_bytes b = .ok (v, b1)) :
    b1.length + 4 ≤ b.length := by
  unfold ResTable_config.from_bytes at h
  cases h1 : readU32 b true with
  | error e => rw [h1] at h; cases h
  | ok p =>
    obtain ⟨sz, b2⟩ := p
    rw [h1] at h
    simp only [bindOk, Except.ok.injEq, Prod.mk.injEq] at h
    obtain ⟨c1, hc1⟩ := readU32_c h1
    subst c1
    have hd := pyDrop_length_le (b.drop 4) ((sz.val : Int) - 4)
    rw [← h.2]
    simp [List.length_drop] at hd ⊢
    omega

theorem tsheader_c {b : Bytes} {little v b1}
    (h : ResTable_typeSpec_header.from_bytes b little = .ok (v, b1)) :
    b1 = b.drop 16 ∧ 16 ≤ b.length := by
  unfold ResTable_typeSpec_header.from_bytes at h
  cases h1 : ResChunk_header.from_bytes b true with
  | error e => rw [h1] at h; cases h
  | ok p =>
    obtain ⟨ch, b2⟩ := p
    rw [h1] at h
    simp only [bindOk] at h
    cases h2 : readU8 b2 with
    | error e => rw [h2] at h; cases h
    | ok q =>
      obtain ⟨id, b3⟩ := q
      rw [h2] at h
      simp only [bindOk] at h
      cases h3 : readU8 b3 with
      | error e => rw [h3] at h; cases h
      | ok r =>
        obtain ⟨r0, b4⟩ := r
        rw [h3] at h
        simp only [bindOk] at h
        cases h4 : readU16 b4 true with
        | error e => rw [h4] at h; cases h
        | ok s =>
          obtain ⟨r1, b5⟩ := s
          rw [h4] at h
          simp only [bindOk] at h
          cases h5 : readU32 b5 true with
          | error e => rw [h5] at h; cases h
          | ok t =>
            obtain ⟨ec, b6⟩ := t
            rw [h5] at h
            simp only [bindOk] at h
            unfold ResTable_typeSpec_header.init at h
            by_cases hty : ch.type ≠ RES_TABLE_TYPE_SPEC_TYPE
            · rw [if_pos hty] at h; cases h
            · rw [if_neg hty] at h
              simp only [bindOk, Except.ok.injEq, Prod.mk.injEq] at h
              obtain ⟨c1, hc1⟩ := chunk_c h1
              obtain ⟨c2, hc2⟩ := readU8_c h2
              obtain ⟨c3, hc3⟩ := readU8_c h3
              obtain ⟨c4, hc4⟩ := readU16_c h4
              obtain ⟨c5, hc5⟩ := readU32_c h5
              subst c1 c2 c3 c4 c5
              refine ⟨?_, ?_⟩
              · rw [← h.2]
                simp [List.drop_drop]
              · simp [List.length_drop] at hc2 hc3 hc4 hc5
                omega

theorem tyheader_c {b : Bytes} {little v b1}
    (h : ResTable_type_header.from_bytes b little = .ok (v, b1)) :
    b1.length + 24 ≤ b.length := by
  unfold ResTable_type_header.from_bytes at h
  cases h1 : ResChunk_header.from_bytes b true with
  | error e => rw [h1] at h; cases h
  | ok p =>
    obtain ⟨ch, b2⟩ := p
    rw [h1] at h
    simp only [bindOk] at h
    cases h2 : readU8 b2 with
    | error e => rw [h2] at h; cases h
    | ok q =>
      obtain ⟨id, b3⟩ := q
      rw [h2] at h
      simp only [bindOk] at h
      cases h3 : readU8 b3 with
      | error e => rw [h3] at h; cases h
      | ok r =>
        obtain ⟨r0, b4⟩ := r
        rw [h3] at h
        simp only [bindOk] at h
        cases h4 : readU16 b4 true with
        | error e => rw [h4] at h; cases h
        | ok s =>
          obtain ⟨r1, b5⟩ := s
          rw [h4] at h
          simp only [bindOk] at h
          cases h5 : readU32 b5 true with
          | error e => rw [h5] at h; cases h
          | ok t =>
            obtain ⟨ec, b6⟩ := t
            rw [h5] at h
            simp only [bindOk] at h
            cases h6 : readU32 b6 true with
            | error e => rw [h6] at h; cases h
            | ok w =>
              obtain ⟨es, b7⟩ := w
              rw [h6] at h
              simp only [bindOk] at h
              cases h7 : ResTable_config.from_bytes b7 with
              | error e => rw [h7] at h; cases h
              | ok z =>
                obtain ⟨cfg, b8⟩ := z
                rw [h7] at h
                simp only [bindOk] at h
                unfold ResTable_type_header.init at h
                by_cases hty : ch.type ≠ RES_TABLE_TYPE_TYPE
                · rw [if_pos hty] at h; cases h
                · rw [if_neg hty] at h
                  simp only [bindOk, Except.ok.injEq, Prod.mk.injEq] at h
                  obtain ⟨c1, hc1⟩ := chunk_c h1
                  obtain ⟨c2, hc2⟩ := readU8_c h2
                  obtain ⟨c3, hc3⟩ := readU8_c h3
                  obtain ⟨c4, hc4⟩ := readU16_c h4
                  obtain ⟨c5, hc5⟩ := readU32_c h5
                  obtain ⟨c6, hc6⟩ := readU32_c h6
                  have hc7 := config_c h7
                  subst c1 c2 c3 c4 c5 c6
                  rw [← h.2]
                  simp [List.length_drop] at hc2 hc3 hc4 hc5 hc6 hc7 ⊢
                  omega

theorem typeSpec_c {b : Bytes} {little v b1}
    (h : ResTable_typeSpec.from_bytes b little = .ok (v, b1)) :
    b1.length + 16 ≤ b.length := by
  unfold ResTable_typeSpec.from_bytes at h
  cases h1 : ResTable_typeSpec_header.from_bytes b true with
  | error e => rw [h1] at h; cases h
  | ok p =>
    obtain ⟨hd, b2⟩ := p
    rw [h1] at h
    simp only [bindOk, Except.ok.injEq, Prod.mk.injEq] at h
    obtain ⟨c1, hc1⟩ := tsheader_c h1
    subst c1
    have hd2 := pyDrop_length_le (b.drop 16)
      ((hd.header.size.val : Int) - (hd.header.headerSize.val : Int))
    rw [← h.2]
    simp [List.length_drop] at hd2 ⊢
    omega

theorem type_c {b : Bytes} {little v b1}
    (h : ResTable_type.from_bytes b little = .ok (v, b1)) :
    b1.length + 24 ≤ b.length := by
  unfold ResTable_type.from_bytes at h
  cases h1 : ResTable_type_header.from_bytes b true with
  | error e => rw [h1] at h; cases h
  | ok p =>
    obtain ⟨hd, b2⟩ := p
    rw [h1] at h
    simp only [bindOk, Except.ok.injEq, Prod.mk.injEq] at h
    have hc1 := tyheader_c h1
    have hd2 := pyDrop_length_le b2
      ((hd.header.size.val : Int) - (hd.header.headerSize.val : Int))
    rw [← h.2]
    omega

/-! ## Scan loop lemmas -/

theorem scanLoop_nil (f : Nat) (types : List (Option (List PChunk)))
    (spec : Option (List PChunk)) : scanLoop f [] types spec = .ok (types ++ [spec]) := by
  cases f <;> rfl

theorem scanLoop_spec_step {f : Nat} {b : Bytes} {types : List (Option (List PChunk))}
    {spec : Option (List PChunk)} {hdr : ResChunk_header} {hb : Bytes}
    {ts : ResTable_typeSpec} {b1 : Bytes}
    (hne : b ≠ [])
    (hpeek : ResChunk_header.from_bytes b true = .ok (hdr, hb))
    (hty : hdr.type = RES_TABLE_TYPE_SPEC_TYPE)
    (hts : ResTable_typeSpec.from_bytes b true = .ok (ts, b1)) :
    scanLoop (f + 1) b types spec = scanLoop f b1 (flushSpec types spec) (some [.typeSpec ts]) := by
  cases b with
  | nil => exact absurd rfl hne
  | cons x t =>
    conv_lhs => unfold scanLoop
    rw [hpeek]
    simp only [bindOk]
    rw [if_pos hty, hts]
    simp only [bindOk]

theorem scanLoop_type_step {f : Nat} {b : Bytes} {types : List (Option (List PChunk))}
    {s : List PChunk} {hdr : ResChunk_header} {hb : Bytes}
    {ty : ResTable_type} {b1 : Bytes}
    (hne : b ≠ [])
    (hpeek : ResChunk_header.from_bytes b true = .ok (hdr, hb))
    (hty : hdr.type = RES_TABLE_TYPE_TYPE)
    (hdec : ResTable_type.from_bytes b true = .ok (ty, b1)) :
    scanLoop (f + 1) b types (some s) = scanLoop f b1 types (some (s ++ [.type ty])) := by
  cases b with
  | nil => exact absurd rfl hne
  | cons x t =>
    conv_lhs => unfold scanLoop
    rw [hpeek]
    simp only [bindOk]
    rw [if_neg (by simp [hty]; decide), if_pos hty, hdec]
    simp only [bindOk]

theorem scanLoop_type_none {f : Nat} {b : Bytes} {types : List (Option (List PChunk))}
    {hdr : ResChunk_header} {hb : Bytes} {ty : ResTable_type} {b1 : Bytes}
    (hne : b ≠ [])
    (hpeek : ResChunk_header.from_bytes b true = .ok (hdr, hb))
    (hty : hdr.type = RES_TABLE_TYPE_TYPE)
    (hdec : ResTable_type.from_bytes b true = .ok (ty, b1)) :
    scanLoop (f + 1) b types none = .error .noneAppend := by
  cases b with
  | nil => exact absurd rfl hne
  | cons x t =>
    unfold scanLoop
    rw [hpeek]
    simp only [bindOk]
    rw [if_neg (by simp [hty]; decide), if_pos hty, hdec]
    simp only [bindOk]

theorem scanLoop_other {f : Nat} {b : Bytes} {types : List (Option (List PChunk))}
    {spec : Option (List PChunk)} {hdr : ResChunk_header} {hb : Bytes}
    (hne : b ≠ [])
    (hpeek : ResChunk_header.from_bytes b true = .ok (hdr, hb))
    (h1 : hdr.type ≠ RES_TABLE_TYPE_SPEC_TYPE)
    (h2 : hdr.type ≠ RES_TABLE_TYPE_TYPE) :
    scanLoop (f + 1) b types spec =
      .error (.chunkHeaderWrongType [RES_TABLE_TYPE_SPEC_TYPE, RES_TABLE_TYPE_TYPE]
        (some hdr.type)) := by
  cases b with
  | nil => exact absurd rfl hne
  | cons x t =>
    unfold scanLoop
    rw [hpeek]
    simp only [bindOk]
    rw [if_neg h1, if_neg h2]

theorem scanLoop_fuel (f1 : Nat) : ∀ (f2 : Nat) (b : Bytes)
    (types : List (Option (List PChunk))) (spec : Option (List PChunk)),
    b.length ≤ f1 → b.length ≤ f2 → scanLoop f1 b types spec = scanLoop f2 b types spec := by
  induction f1 with
  | zero =>
    intro f2 b types spec h1 h2
    have hb : b = [] := by
      cases b with
      | nil => rfl
      | cons x t => simp at h1
    subst hb
    rw [scanLoop_nil, scanLoop_nil]
  | succ f1 ih =>
    intro f2 b types spec h1 h2
    cases b with
    | nil => rw [scanLoop_nil, scanLoop_nil]
    | cons x t =>
      cases f2 with
      | zero => simp at h2
      | succ f2 =>
        unfold scanLoop
        cases hh : ResChunk_header.from_bytes (x :: t) true with
        | error e => simp only [bindErr]
        | ok p =>
          obtain ⟨hdr, hb⟩ := p
          simp only [bindOk]
          by_cases hty1 : hdr.type = RES_TABLE_TYPE_SPEC_TYPE
          · rw [if_pos hty1, if_pos hty1]
            cases hts : ResTable_typeSpec.from_bytes (x :: t) true with
            | error e => simp only [bindErr]
            | ok q =>
              obtain ⟨ts, b1⟩ := q
              simp only [bindOk]
              have hc := typeSpec_c hts
              simp only [List.length_cons] at h1 h2 hc
              exact ih f2 b1 _ _ (by omega) (by omega)
          · rw [if_neg hty1, if_neg hty1]
            by_cases hty2 : hdr.type = RES_TABLE_TYPE_TYPE
            · rw [if_pos hty2, if_pos hty2]
              cases hdec : ResTable_type.from_bytes (x :: t) true with
              | error e => simp only [bindErr]
              | ok q =>
                obtain ⟨ty, b1⟩ := q
                simp only [bindOk]
                cases spec with
                | none => rfl
                | some s =>
                  have hc := type_c hdec
                  simp only [List.length_cons] at h1 h2 hc
                  exact ih f2 b1 _ _ (by omega) (by omega)
            · rw [if_neg hty2, if_neg hty2]

/-! ## Scanning a stream of encoded chunks -/

/-- The serialized bytes of a list of chunks. -/
def groupBytes (g : List PChunk) : Bytes := (g.map PChunk.bytes).flatten

/-- The serialized bytes of a list of groups. -/
def groupsBytes (gs : List (List PChunk)) : Bytes := (gs.map groupBytes).flatten

theorem typeSpec_bytes_len (v : ResTable_typeSpec) (h : v.canon) :
    v.bytes.length = 16 + v.configs.length := by
  obtain ⟨hd, cfg⟩ := v
  obtain ⟨hhd, hhs, hsz⟩ := h
  simp [ResTable_typeSpec.bytes, typeSpec_header_bytes_len hd hhd]

theorem type_bytes_len (v : ResTable_type) (h : v.canon) :
    v.bytes.length = 24 + v.header.config.notimpl.length + v.rest.length := by
  obtain ⟨hd, body⟩ := v
  obtain ⟨hhd, hhs, hsz⟩ := h
  have h1 := type_header_bytes_len hd hhd
  have h2 : hd.config.size.val = 4 + hd.config.notimpl.length := hhd.2.2.2.2.2.2.2.2
  simp [ResTable_type.bytes, h1]
  omega

theorem peek_ts (ts : ResTable_typeSpec) (X : Bytes) (h : ts.canon) :
    ∃ hb, ResChunk_header.from_bytes (ts.bytes ++ X) true = .ok (ts.header.header, hb) := by
  obtain ⟨⟨ch, id, r0, r1, ec⟩, cfg⟩ := ts
  obtain ⟨⟨hch, hrest⟩, hhs, hsz⟩ := h
  refine ⟨id.bytes ++ (r0.bytes ++ (r1.bytes ++ (ec.bytes ++ (cfg ++ X)))), ?_⟩
  simp only [ResTable_typeSpec.bytes, ResTable_typeSpec_header.bytes, List.append_assoc]
  exact chunk_rt ch _ true hch

theorem peek_ty (ty : ResTable_type) (X : Bytes) (h : ty.canon) :
    ∃ hb, ResChunk_header.from_bytes (ty.bytes ++ X) true = .ok (ty.header.header, hb) := by
  obtain ⟨⟨ch, id, r0, r1, ec, es, cfg⟩, body⟩ := ty
  obtain ⟨⟨hch, hrest⟩, hhs, hsz⟩ := h
  refine ⟨id.bytes ++ (r0.bytes ++ (r1.bytes ++ (ec.bytes ++ (es.bytes ++
    (cfg.bytes ++ (body ++ X)))))), ?_⟩
  simp only [ResTable_type.bytes, ResTable_type_header.bytes, List.append_assoc]
  exact chunk_rt ch _ true hch

theorem scan_tail (tl : List PChunk) : ∀ (B : Bytes) (f : Nat)
    (types : List (Option (List PChunk))) (acc : List PChunk),
    (∀ c ∈ tl, isTypeChunk c) → (groupBytes tl ++ B).length ≤ f →
    scanLoop f (groupBytes tl ++ B) types (some acc) =
      scanLoop B.length B types (some (acc ++ tl)) := by
  induction tl with
  | nil =>
    intro B f types acc hc hf
    simp only [groupBytes, List.map_nil, List.flatten_nil, List.nil_append, List.append_nil] at *
    exact scanLoop_fuel f B.length B types (some acc) hf (le_refl _)
  | cons c tl ih =>
    intro B f types acc hc hf
    cases c with
    | typeSpec ts =>
      have hfalse := hc (PChunk.typeSpec ts) (by simp)
      simp [isTypeChunk] at hfalse
    | type ty =>
      have hty : ty.canon := hc (PChunk.type ty) (by simp)
      have hlen : ty.bytes.length = 24 + ty.header.config.notimpl.length + ty.rest.length :=
        type_bytes_len ty hty
      have hne : ty.bytes ≠ [] := by
        intro hcontra
        rw [hcontra] at hlen
        simp only [List.length_nil] at hlen
        omega
      simp only [groupBytes, List.map_cons, List.flatten_cons, List.append_assoc,
        PChunk.bytes] at hf ⊢
      cases f with
      | zero =>
        exfalso
        have : 1 ≤ ty.bytes.length := by omega
        simp only [List.length_append] at hf
        omega
      | succ f =>
        obtain ⟨hb, hpeek⟩ := peek_ty ty ((tl.map PChunk.bytes).flatten ++ B) hty
        have hdec := type_rt ty ((tl.map PChunk.bytes).flatten ++ B) true hty
        rw [scanLoop_type_step (by simp [hne]) hpeek hty.1.2.1 hdec]
        have hrec := ih B f types (acc ++ [.type ty]) (fun c hc2 => hc c (by simp [hc2]))
          (by simp only [groupBytes, List.length_append] at hf ⊢; omega)
        simp only [groupBytes, List.append_assoc] at hrec
        rw [hrec]
        simp

theorem scan_groups (gs : List (List PChunk)) : ∀ (f : Nat)
    (types : List (Option (List PChunk))) (acc : List PChunk),
    (∀ g ∈ gs, canonGroup g) → (groupsBytes gs).length ≤ f →
    scanLoop f (groupsBytes gs) types (some acc) =
      .ok ((types ++ [some acc]) ++ gs.map some) := by
  induction gs with
  | nil =>
    intro f types acc hg hf
    simp only [groupsBytes, List.map_nil, List.flatten_nil, List.append_nil]
    rw [scanLoop_nil]
  | cons g gs ih =>
    intro f types acc hg hf
    have hcg : canonGroup g := hg g (by simp)
    match g, hcg with
    | .typeSpec ts :: tl, hcg =>
      obtain ⟨hts, htl⟩ := hcg
      have hlen : ts.bytes.length = 16 + ts.configs.length := typeSpec_bytes_len ts hts
      have hne : ts.bytes ≠ [] := by
        intro hcontra
        rw [hcontra] at hlen
        simp only [List.length_nil] at hlen
        omega
      simp only [groupsBytes, groupBytes, List.map_cons, List.flatten_cons,
        List.append_assoc, PChunk.bytes] at hf ⊢
      cases f with
      | zero =>
        exfalso
        have : 1 ≤ ts.bytes.length := by omega
        simp only [List.length_append] at hf
        omega
      | succ f =>
        obtain ⟨hb, hpeek⟩ := peek_ts ts
          ((tl.map PChunk.bytes).flatten ++ (gs.map groupBytes).flatten) hts
        have hdec := typeSpec_rt ts
          ((tl.map PChunk.bytes).flatten ++ (gs.map groupBytes).flatten) true hts
        rw [scanLoop_spec_step (by simp [hne]) hpeek hts.1.2.1 hdec]
        have hrec := scan_tail tl ((gs.map groupBytes).flatten) f
          (flushSpec types (some acc)) [.typeSpec ts] htl
          (by simp only [groupBytes, List.length_append] at hf ⊢; omega)
        simp only [groupBytes, List.append_assoc] at hrec
        rw [hrec]
        have hrec2 := ih ((gs.map groupBytes).flatten).length (flushSpec types (some acc))
          ([.typeSpec ts] ++ tl) (fun g2 hg2 => hg g2 (by simp [hg2]))
          (by simp [groupsBytes])
        simp only [groupsBytes] at hrec2
        rw [hrec2]
        simp [flushSpec]

theorem scan_top (g : List PChunk) (gs : List (List PChunk)) (f : Nat)
    (hg : canonGroup g) (hgs : ∀ x ∈ gs, canonGroup x)
    (hf : (groupsBytes (g :: gs)).length ≤ f) :
    scanLoop f (groupsBytes (g :: gs)) [] none = .ok ((g :: gs).map some) := by
  match g, hg with
  | .typeSpec ts :: tl, hg =>
    obtain ⟨hts, htl⟩ := hg
    have hlen : ts.bytes.length = 16 + ts.configs.length := typeSpec_bytes_len ts hts
    have hne : ts.bytes ≠ [] := by
      intro hcontra
      rw [hcontra] at hlen
      simp only [List.length_nil] at hlen
      omega
    simp only [groupsBytes, groupBytes, List.map_cons, List.flatten_cons,
      List.append_assoc, PChunk.bytes] at hf ⊢
    cases f with
    | zero =>
      exfalso
      have : 1 ≤ ts.bytes.length := by omega
      simp only [List.length_append] at hf
      omega
    | succ f =>
      obtain ⟨hb, hpeek⟩ := peek_ts ts
        ((tl.map PChunk.bytes).flatten ++ (gs.map groupBytes).flatten) hts
      have hdec := typeSpec_rt ts
        ((tl.map PChunk.bytes).flatten ++ (gs.map groupBytes).flatten) true hts
      rw [scanLoop_spec_step (by simp [hne]) hpeek hts.1.2.1 hdec]
      have hrec := scan_tail tl ((gs.map groupBytes).flatten) f
        (flushSpec [] none) [.typeSpec ts] htl
        (by simp only [groupBytes, List.length_append] at hf ⊢; omega)
      simp only [groupBytes, List.append_assoc] at hrec
      rw [hrec]
      have hrec2 := scan_groups gs ((gs.map groupBytes).flatten).length (flushSpec [] none)
        ([.typeSpec ts] ++ tl) hgs (by simp [groupsBytes])
      simp only [groupsBytes] at hrec2
      rw [hrec2]
      simp [flushSpec]

/-! ## Package and table round trips -/

theorem groupBytes_len (g : List PChunk) :
    (groupBytes g).length = (g.map (fun c => c.bytes.length)).sum := by
  induction g with
  | nil => simp [groupBytes]
  | cons c t ih => simp [groupBytes, List.map_cons, List.flatten_cons] at ih ⊢; omega

theorem flattenGroups_some (gs : List (List PChunk)) :
    flattenGroups (gs.map some) = .ok (groupsBytes gs) := by
  induction gs with
  | nil => rfl
  | cons g t ih =>
    simp only [List.map_cons, flattenGroups, ih, bindOk, groupsBytes, List.flatten_cons]
    rfl

theorem typesFlatLen_some (gs : List (List PChunk)) :
    typesFlatLen (gs.map some) = (groupsBytes gs).length := by
  induction gs with
  | nil => rfl
  | cons g t ih =>
    simp only [List.map_cons, typesFlatLen, ih, groupsBytes, List.flatten_cons,
      List.length_append]
    rw [groupBytes_len]

theorem types_shape (l : List (Option (List PChunk)))
    (h : ∀ o ∈ l, ∃ g, o = some g ∧ canonGroup g) :
    ∃ gs : List (List PChunk), l = gs.map some ∧ ∀ g ∈ gs, canonGroup g := by
  induction l with
  | nil => exact ⟨[], rfl, by simp⟩
  | cons o t ih =>
    obtain ⟨g, hg, hcg⟩ := h o (by simp)
    obtain ⟨gs, hgs, hall⟩ := ih (fun o2 ho2 => h o2 (by simp [ho2]))
    refine ⟨g :: gs, by simp [hg, hgs], ?_⟩
    intro g2 hg2
    rcases List.mem_cons.mp hg2 with hg2a | hg2a
    · exact hg2a ▸ hcg
    · exact hall g2 hg2a

theorem pkg_header_bytes_len (v : ResTable_package_header) (h : v.canon) :
    v.bytes.length = 288 := by
  obtain ⟨ch, id, nm, ts, lpt, ks, lpk⟩ := v
  obtain ⟨hch, hty, hhs, hid, hnm, hnt, hts, hlpt, hks, hlpk⟩ := h
  simp only at hnm
  have h8 := chunk_bytes_len ch hch
  simp only [ResTable_package_header.bytes, List.length_append, u32bytes_len, h8, hnm,
    List.length_replicate]

theorem pool_bytes_ge (v : ResStringPool) (h : v.canon) : 28 ≤ v.bytes.length := by
  have h1 := pool_bytes_len v h
  obtain ⟨c1, c2, c3, c4, c5, c6, c7, c8, c9, c10, c11, c12, c13, hsz⟩ := h
  omega

set_option maxHeartbeats 1000000 in
theorem package_rt (v : ResTable_package) (bs rest : Bytes) (little : Bool) (h : v.canon)
    (hbs : ResTable_package.bytesE v = .ok bs) :
    ResTable_package.from_bytes (bs ++ rest) little = .ok (v, rest) := by
  obtain ⟨hdr, ts, ks, types⟩ := v
  obtain ⟨hhdr, hts, hks, htso, hkso, htne, hall, hsz⟩ := h
  simp only at hhdr hts hks htso hkso htne hall hsz
  obtain ⟨gs, hgs, hgall⟩ := types_shape types hall
  subst hgs
  have hgsne : gs ≠ [] := by
    intro hcontra
    rw [hcontra] at htne
    exact htne rfl
  simp only [ResTable_package.bytesE, flattenGroups_some, bindOk, Except.ok.injEq] at hbs
  subst hbs
  have hhl := pkg_header_bytes_len hdr hhdr
  have htl := pool_bytes_len ts hts
  have hkl := pool_bytes_len ks hks
  have hkge := pool_bytes_ge ks hks
  have hcs : hdr.header.size.val =
      288 + ts.bytes.length + ks.bytes.length + (groupsBytes gs).length := by
    rw [hsz, typesFlatLen_some]
  simp only [ResTable_package.from_bytes, List.append_assoc]
  rw [pkg_header_rt hdr _ hhdr]
  simp only [bindOk]
  have htake := takeLenOf (hdr.bytes ++ ts.bytes ++ ks.bytes ++ groupsBytes gs) rest
    (show (hdr.bytes ++ ts.bytes ++ ks.bytes ++ groupsBytes gs).length = hdr.header.size.val by
      simp only [List.length_append]
      omega)
  have hdropR := dropLenOf (hdr.bytes ++ ts.bytes ++ ks.bytes ++ groupsBytes gs) rest
    (show (hdr.bytes ++ ts.bytes ++ ks.bytes ++ groupsBytes gs).length = hdr.header.size.val by
      simp only [List.length_append]
      omega)
  simp only [List.append_assoc] at htake hdropR
  rw [htake, hdropR]
  have hdrop1 := dropLenOf hdr.bytes (ts.bytes ++ (ks.bytes ++ groupsBytes gs))
    (show hdr.bytes.length = hdr.typeStrings.val by omega)
  simp only [List.append_assoc] at hdrop1
  rw [hdrop1]
  rw [pool_rt ts _ true hts]
  simp only [bindOk]
  have hdrop2 := dropLenOf (hdr.bytes ++ ts.bytes) (ks.bytes ++ groupsBytes gs)
    (show (hdr.bytes ++ ts.bytes).length = hdr.keyStrings.val by
      simp only [List.length_append]
      omega)
  simp only [List.append_assoc] at hdrop2
  rw [hdrop2]
  rw [pool_rt ks _ true hks]
  simp only [bindOk]
  rw [if_pos (by simp only [List.length_append]; omega)]
  cases gs with
  | nil => exact absurd rfl hgsne
  | cons g gs2 =>
    rw [scan_top g gs2 (groupsBytes (g :: gs2)).length (hgall g (by simp))
      (fun x hx => hgall x (by simp [hx])) (le_refl _)]
    simp only [bindOk]

theorem packagesLoop_rt : ∀ (pkgs : List ResTable_package) (bss rest : Bytes),
    (∀ p ∈ pkgs, p.canon) → packagesBytes pkgs = .ok bss →
    packagesLoop pkgs.length (bss ++ rest) = .ok (pkgs, rest) := by
  intro pkgs
  induction pkgs with
  | nil =>
    intro bss rest hall hbss
    simp only [packagesBytes, Except.ok.injEq] at hbss
    subst hbss
    rfl
  | cons p t ih =>
    intro bss rest hall hbss
    simp only [packagesBytes] at hbss
    cases hp : ResTable_package.bytesE p with
    | error e => rw [hp] at hbss; cases hbss
    | ok a =>
      rw [hp] at hbss
      simp only [bindOk] at hbss
      cases ht : packagesBytes t with
      | error e => rw [ht] at hbss; cases hbss
      | ok r =>
        rw [ht] at hbss
        simp only [bindOk, Except.ok.injEq] at hbss
        subst hbss
        simp only [List.length_cons, packagesLoop, List.append_assoc]
        rw [package_rt p a (r ++ rest) true (hall p (by simp)) hp]
        simp only [bindOk]
        rw [ih r rest (fun q hq => hall q (by simp [hq])) ht]
        rfl

theorem table_rt (v : ResTable) (bs rest : Bytes) (little : Bool) (h : v.canon)
    (hbs : ResTable.bytesE v = .ok bs) :
    ResTable.from_bytes (bs ++ rest) little = .ok (v, rest) := by
  obtain ⟨hdr, vals, pkgs⟩ := v
  obtain ⟨hhdr, hvals, hall, hcount⟩ := h
  simp only at hhdr hvals hall hcount
  simp only [ResTable.bytesE] at hbs
  cases hpk : packagesBytes pkgs with
  | error e => rw [hpk] at hbs; cases hbs
  | ok pkb =>
    rw [hpk] at hbs
    simp only [bindOk, Except.ok.injEq] at hbs
    subst hbs
    simp only [ResTable.from_bytes, List.append_assoc]
    rw [table_header_rt hdr _ true hhdr]
    simp only [bindOk]
    rw [pool_rt vals _ true hvals]
    simp only [bindOk]
    rw [hcount]
    rw [packagesLoop_rt pkgs pkb rest hall hpk]
    rfl

/-! ## Inversion of string pool decoding -/

theorem readU8_err {b : Bytes} {e : Err} (h : readU8 b = .error e) : e = .structError := by
  cases b with
  | nil => cases h; rfl
  | cons x t => cases h

theorem readU16_err {b : Bytes} {little : Bool} {e : Err} (h : readU16 b little = .error e) :
    e = .structError := by
  unfold readU16 at h
  by_cases hc : b.length < 2
  · rw [if_pos hc] at h; cases h; rfl
  · rw [if_neg hc] at h; cases h

theorem readU32_err {b : Bytes} {little : Bool} {e : Err} (h : readU32 b little = .error e) :
    e = .structError := by
  unfold readU32 at h
  by_cases hc : b.length < 4
  · rw [if_pos hc] at h; cases h; rfl
  · rw [if_neg hc] at h; cases h

theorem rtype_err {b : Bytes} {little : Bool} {e : Err}
    (h : ResourceType.from_bytes b little = .error e) : e = .structError := by
  unfold ResourceType.from_bytes at h
  by_cases hc : b.length < 2
  · rw [if_pos hc] at h; cases h; rfl
  · rw [if_neg hc] at h; cases h

theorem flags_err {b : Bytes} {little : Bool} {e : Err}
    (h : Flags.from_bytes b little = .error e) : e = .structError := by
  unfold Flags.from_bytes at h
  by_cases hc : b.length < 4
  · rw [if_pos hc] at h; cases h; rfl
  · rw [if_neg hc] at h; cases h

theorem chunk_err {b : Bytes} {little : Bool} {e : Err}
    (h : ResChunk_header.from_bytes b little = .error e) : e = .structError := by
  unfold ResChunk_header.from_bytes at h
  cases h1 : ResourceType.from_bytes b true with
  | error e1 =>
    rw [h1] at h
    simp only [bindErr] at h
    cases h
    exact rtype_err h1
  | ok p =>
    obtain ⟨t, b2⟩ := p
    rw [h1] at h
    simp only [bindOk] at h
    cases h2 : readU16 b2 true with
    | error e2 =>
      rw [h2] at h
      simp only [bindErr] at h
      cases h
      exact readU16_err h2
    | ok q =>
      obtain ⟨hs, b3⟩ := q
      rw [h2] at h
      simp only [bindOk] at h
      cases h3 : readU32 b3 true with
      | error e3 =>
        rw [h3] at h
        simp only [bindErr] at h
        cases h
        exact readU32_err h3
      | ok r =>
        rw [h3] at h
        simp only [bindOk] at h
        cases h

theorem pool_header_err {b : Bytes} {little : Bool} {e : Err}
    (h : ResStringPool_header.from_bytes b little = .error e) :
    e = .structError ∨ e = .chunkHeaderWrongType [RES_STRING_POOL_TYPE] none := by
  unfold ResStringPool_header.from_bytes at h
  cases h1 : ResChunk_header.from_bytes b true with
  | error e1 =>
    rw [h1] at h
    simp only [bindErr] at h
    cases h
    exact Or.inl (chunk_err h1)
  | ok p =>
    obtain ⟨ch, b2⟩ := p
    rw [h1] at h
    simp only [bindOk] at h
    cases h2 : readU32 b2 true with
    | error e2 =>
      rw [h2] at h; simp only [bindErr] at h; cases h
      exact Or.inl (readU32_err h2)
    | ok q =>
      obtain ⟨n, b3⟩ := q
      rw [h2] at h
      simp only [bindOk] at h
      cases h3 : readU32 b3 true with
      | error e3 =>
        rw [h3] at h; simp only [bindErr] at h; cases h
        exact Or.inl (readU32_err h3)
      | ok r =>
        obtain ⟨m, b4⟩ := r
        rw [h3] at h
        simp only [bindOk] at h
        cases h4 : Flags.from_bytes b4 true with
        | error e4 =>
          rw [h4] at h; simp only [bindErr] at h; cases h
          exact Or.inl (flags_err h4)
        | ok s =>
          obtain ⟨fl, b5⟩ := s
          rw [h4] at h
          simp only [bindOk] at h
          cases h5 : readU32 b5 true with
          | error e5 =>
            rw [h5] at h; simp only [bindErr] at h; cases h
            exact Or.inl (readU32_err h5)
          | ok t =>
            obtain ⟨ss, b6⟩ := t
            rw [h5] at h
            simp only [bindOk] at h
            cases h6 : readU32 b6 true with
            | error e6 =>
              rw [h6] at h; simp only [bindErr] at h; cases h
              exact Or.inl (readU32_err h6)
            | ok w =>
              obtain ⟨ts, b7⟩ := w
              rw [h6] at h
              simp only [bindOk] at h
              unfold ResStringPool_header.init at h
              by_cases hty : ch.type ≠ RES_STRING_POOL_TYPE
              · rw [if_pos hty] at h
                simp only [bindErr] at h
                cases h
                exact Or.inr rfl
              · rw [if_neg hty] at h
                simp only [bindOk] at h
                cases h

theorem pool_header_consume {b : Bytes} {little : Bool} {v b1}
    (h : ResStringPool_header.from_bytes b little = .ok (v, b1)) :
    b1 = b.drop 28 ∧ 28 ≤ b.length := by
  unfold ResStringPool_header.from_bytes at h
  cases h1 : ResChunk_header.from_bytes b true with
  | error e1 => rw [h1] at h; cases h
  | ok p =>
    obtain ⟨ch, b2⟩ := p
    rw [h1] at h
    simp only [bindOk] at h
    cases h2 : readU32 b2 true with
    | error e2 => rw [h2] at h; cases h
    | ok q =>
      obtain ⟨n, b3⟩ := q
      rw [h2] at h
      simp only [bindOk] at h
      cases h3 : readU32 b3 true with
      | error e3 => rw [h3] at h; cases h
      | ok r =>
        obtain ⟨m, b4⟩ := r
        rw [h3] at h
        simp only [bindOk] at h
        cases h4 : Flags.from_bytes b4 true with
        | error e4 => rw [h4] at h; cases h
        | ok s =>
          obtain ⟨fl, b5⟩ := s
          rw [h4] at h
          simp only [bindOk] at h
          cases h5 : readU32 b5 true with
          | error e5 => rw [h5] at h; cases h
          | ok t =>
            obtain ⟨ss, b6⟩ := t
            rw [h5] at h
            simp only [bindOk] at h
            cases h6 : readU32 b6 true with
            | error e6 => rw [h6] at h; cases h
            | ok w =>
              obtain ⟨ts, b7⟩ := w
              rw [h6] at h
              simp only [bindOk] at h
              unfold ResStringPool_header.init at h
              by_cases hty : ch.type ≠ RES_STRING_POOL_TYPE
              · rw [if_pos hty] at h; cases h
              · rw [if_neg hty] at h
                simp only [bindOk, Except.ok.injEq, Prod.mk.injEq] at h
                obtain ⟨c1, hl1⟩ := chunk_c h1
                obtain ⟨c2, hl2⟩ := readU32_c h2
                obtain ⟨c3, hl3⟩ := readU32_c h3
                obtain ⟨c4, hl4⟩ := flags_c h4
                obtain ⟨c5, hl5⟩ := readU32_c h5
                obtain ⟨c6, hl6⟩ := readU32_c h6
                subst c1 c2 c3 c4 c5 c6
                refine ⟨?_, ?_⟩
                · rw [← h.2]
                  simp [List.drop_drop]
                · simp [List.length_drop] at hl2 hl3 hl4 hl5 hl6
                  omega

theorem splitFixed_len : ∀ (n : Nat) (bb : Bytes) (l : List U32) (r : Bytes),
    splitFixedU32 bb n = .ok (l, r) → bb.length = 4 * n + r.length ∧ l.length = n := by
  intro n
  induction n with
  | zero =>
    intro bb l r h
    simp only [splitFixedU32, Except.ok.injEq, Prod.mk.injEq] at h
    obtain ⟨h1, h2⟩ := h
    subst h2
    simp [← h1]
  | succ n ih =>
    intro bb l r h
    simp only [splitFixedU32] at h
    cases h1 : readU32 bb true with
    | error e => rw [h1] at h; cases h
    | ok p =>
      obtain ⟨u, bb2⟩ := p
      rw [h1] at h
      simp only [bindOk] at h
      cases h2 : splitFixedU32 bb2 n with
      | error e => rw [h2] at h; cases h
      | ok q =>
        obtain ⟨l2, r2⟩ := q
        rw [h2] at h
        simp only [bindOk, Except.ok.injEq, Prod.mk.injEq] at h
        obtain ⟨hl, hr⟩ := h
        subst hr
        obtain ⟨hc, hlen⟩ := readU32_c h1
        obtain ⟨hbl, hll⟩ := ih bb2 l2 r2 h2
        subst hc
        simp only [List.length_drop] at hbl
        constructor
        · omega
        · rw [← hl]
          simp [hll]

theorem splitFixed_err {n : Nat} : ∀ {bb : Bytes} {e : Err},
    splitFixedU32 bb n = .error e → e = .structError := by
  induction n with
  | zero => intro bb e h; cases h
  | succ n ih =>
    intro bb e h
    simp only [splitFixedU32] at h
    cases h1 : readU32 bb true with
    | error e1 =>
      rw [h1] at h
      simp only [bindErr] at h
      cases h
      exact readU32_err h1
    | ok p =>
      obtain ⟨u, bb2⟩ := p
      rw [h1] at h
      simp only [bindOk] at h
      cases h2 : splitFixedU32 bb2 n with
      | error e2 =>
        rw [h2] at h
        simp only [bindErr] at h
        cases h
        exact ih h2
      | ok q =>
        obtain ⟨l2, r2⟩ := q
        rw [h2] at h
        simp only [bindOk] at h
        cases h

theorem splitFixed_little : ∀ (n : Nat) (bb : Bytes) (l : List U32) (r : Bytes),
    splitFixedU32 bb n = .ok (l, r) → ∀ u ∈ l, u.little = true := by
  intro n
  induction n with
  | zero =>
    intro bb l r h
    simp only [splitFixedU32, Except.ok.injEq, Prod.mk.injEq] at h
    rw [← h.1]
    simp
  | succ n ih =>
    intro bb l r h
    simp only [splitFixedU32] at h
    cases h1 : readU32 bb true with
    | error e => rw [h1] at h; cases h
    | ok p =>
      obtain ⟨u, bb2⟩ := p
      rw [h1] at h
      simp only [bindOk] at h
      cases h2 : splitFixedU32 bb2 n with
      | error e => rw [h2] at h; cases h
      | ok q =>
        obtain ⟨l2, r2⟩ := q
        rw [h2] at h
        simp only [bindOk, Except.ok.injEq, Prod.mk.injEq] at h
        obtain ⟨hl, hr⟩ := h
        rw [← hl]
        intro w hw
        rcases List.mem_cons.mp hw with hw1 | hw1
        · subst hw1
          unfold readU32 at h1
          by_cases hc : bb.length < 4
          · rw [if_pos hc] at h1; cases h1
          · rw [if_neg hc] at h1
            simp only [Except.ok.injEq, Prod.mk.injEq] at h1
            rw [← h1.1]
        · exact ih bb2 l2 r2 h2 w hw1

/-- Characterizes every successful string-pool decode: the remainder is
the input past the declared size, the reference list is split from the
UNtruncated remainder after the 28-byte header, and the string blob runs
from stringsStart to the end of the truncated extent regardless of
whether styles are present. -/
theorem ResStringPool.decode_inv {b : Bytes} {little : Bool} {v : ResStringPool} {rest : Bytes}
    (h : ResStringPool.from_bytes b little = .ok (v, rest)) :
    rest = b.drop v.header.header.size.val ∧
    (0 < v.header.stringCount.val →
      splitFixedU32 ((b.drop 28).take (v.header.stringCount.val * 4))
          v.header.stringCount.val = .ok (v.strrefs, []) ∧
      v.strings = splitVarStrings
        ((b.take v.header.header.size.val).drop v.header.stringsStart.val)
        (offsetsToLength (v.strrefs ++
          [⟨((b.take v.header.header.size.val).drop v.header.stringsStart.val).length, false⟩]))) ∧
    (v.header.stringCount.val = 0 → v.strrefs = [] ∧ v.strings = []) ∧
    (0 < v.header.styleCount.val →
      v.styles = splitVarStrings
        ((b.take v.header.header.size.val).drop v.header.stylesStart.val)
        (offsetsToLength (v.stylerefs ++
          [⟨((b.take v.header.header.size.val).drop v.header.stylesStart.val).length, false⟩]))) ∧
    (v.header.styleCount.val = 0 → v.stylerefs = [] ∧ v.styles = []) := by
  unfold ResStringPool.from_bytes at h
  cases hh : ResStringPool_header.from_bytes b true with
  | error e => rw [hh] at h; cases h
  | ok p =>
    obtain ⟨hdr, b1⟩ := p
    rw [hh] at h
    simp only [bindOk] at h
    obtain ⟨hb1, _⟩ := pool_header_consume hh
    subst hb1
    by_cases hn : hdr.stringCount.val * 4 > 0
    · rw [if_pos hn] at h
      by_cases hm : hdr.styleCount.val * 4 > 0
      · rw [if_pos hm] at h
        cases h1 : splitFixedU32 ((b.drop 28).take (hdr.stringCount.val * 4))
            hdr.stringCount.val with
        | error e => rw [h1] at h; cases h
        | ok q =>
          obtain ⟨strrefs, r⟩ := q
          rw [h1] at h
          simp only [bindOk] at h
          by_cases hr : r.length > 0
          · rw [if_pos hr] at h; cases h
          · rw [if_neg hr] at h
            have hrn : r = [] := List.eq_nil_of_length_eq_zero (by omega)
            subst hrn
            cases h2 : splitFixedU32 (((b.drop 28).drop (hdr.stringCount.val * 4)).take
                (hdr.styleCount.val * 4)) hdr.styleCount.val with
            | error e => rw [h2] at h; cases h
            | ok q2 =>
              obtain ⟨stylerefs, r2⟩ := q2
              rw [h2] at h
              simp only [bindOk] at h
              by_cases hr2 : r2.length > 0
              · rw [if_pos hr2] at h; cases h
              · rw [if_neg hr2] at h
                simp only [Except.ok.injEq, Prod.mk.injEq] at h
                obtain ⟨hv, hrest⟩ := h
                subst hrest
                have hlit := map_setLittle strrefs
                  (splitFixed_little _ _ _ _ h1)
                have hhdr : v.header = hdr := by rw [← hv]; rfl
                have hstr : v.strrefs = strrefs := by rw [← hv]; exact hlit
                have hsty : v.stylerefs = stylerefs := by rw [← hv]; rfl
                have hstrs : v.strings = splitVarStrings
                    ((b.take hdr.header.size.val).drop hdr.stringsStart.val)
                    (offsetsToLength (strrefs ++
                      [⟨((b.take hdr.header.size.val).drop hdr.stringsStart.val).length,
                        false⟩])) := by rw [← hv]; rfl
                have hstys : v.styles = splitVarStrings
                    ((b.take hdr.header.size.val).drop hdr.stylesStart.val)
                    (offsetsToLength (stylerefs ++
                      [⟨((b.take hdr.header.size.val).drop hdr.stylesStart.val).length,
                        false⟩])) := by rw [← hv]; rfl
                rw [hhdr, hstr, hsty, hstrs, hstys]
                exact ⟨rfl, fun _ => ⟨h1, rfl⟩, fun hz => absurd hz (by omega),
                  fun _ => rfl, fun hz => absurd hz (by omega)⟩
      · rw [if_neg hm] at h
        have hm0 : hdr.styleCount.val = 0 := by omega
        cases h1 : splitFixedU32 ((b.drop 28).take (hdr.stringCount.val * 4))
            hdr.stringCount.val with
        | error e => rw [h1] at h; cases h
        | ok q =>
          obtain ⟨strrefs, r⟩ := q
          rw [h1] at h
          simp only [bindOk] at h
          by_cases hr : r.length > 0
          · rw [if_pos hr] at h; cases h
          · rw [if_neg hr] at h
            have hrn : r = [] := List.eq_nil_of_length_eq_zero (by omega)
            subst hrn
            rw [hm0] at h
            simp only [splitFixedU32, bindOk] at h
            simp only [List.length_nil, gt_iff_lt, Nat.lt_irrefl, if_false,
              Except.ok.injEq, Prod.mk.injEq] at h
            obtain ⟨hv, hrest⟩ := h
            subst hrest
            have hlit := map_setLittle strrefs (splitFixed_little _ _ _ _ h1)
            have hhdr : v.header = hdr := by rw [← hv]; rfl
            have hstr : v.strrefs = strrefs := by rw [← hv]; exact hlit
            have hsty0 : v.stylerefs = [] := by rw [← hv]; rfl
            have hstys0 : v.styles = [] := by rw [← hv]; rfl
            have hstrs : v.strings = splitVarStrings
                ((b.take hdr.header.size.val).drop hdr.stringsStart.val)
                (offsetsToLength (strrefs ++
                  [⟨((b.take hdr.header.size.val).drop hdr.stringsStart.val).length,
                    false⟩])) := by rw [← hv]; rfl
            rw [hhdr, hstr, hsty0, hstys0, hstrs]
            exact ⟨rfl, fun _ => ⟨h1, rfl⟩, fun hz => absurd hz (by omega),
              fun hz => absurd hm0 (by omega), fun _ => ⟨rfl, rfl⟩⟩
    · rw [if_neg hn] at h
      have hn0 : hdr.stringCount.val = 0 := by omega
      by_cases hm : hdr.styleCount.val * 4 > 0
      · rw [if_pos hm] at h
        rw [hn0] at h
        simp only [splitFixedU32, bindOk] at h
        simp only [List.length_nil, gt_iff_lt, Nat.lt_irrefl, if_false] at h
        cases h2 : splitFixedU32 ((b.drop 28).take (hdr.styleCount.val * 4))
            hdr.styleCount.val with
        | error e => rw [h2] at h; cases h
        | ok q2 =>
          obtain ⟨stylerefs, r2⟩ := q2
          rw [h2] at h
          simp only [bindOk] at h
          by_cases hr2 : r2.length > 0
          · rw [if_pos hr2] at h; cases h
          · rw [if_neg hr2] at h
            simp only [Except.ok.injEq, Prod.mk.injEq] at h
            obtain ⟨hv, hrest⟩ := h
            subst hrest
            have hhdr : v.header = hdr := by rw [← hv]; rfl
            have hstr0 : v.strrefs = [] := by rw [← hv]; rfl
            have hstrs0 : v.strings = [] := by rw [← hv]; rfl
            have hsty : v.stylerefs = stylerefs := by rw [← hv]; rfl
            have hstys : v.styles = splitVarStrings
                ((b.take hdr.header.size.val).drop hdr.stylesStart.val)
                (offsetsToLength (stylerefs ++
                  [⟨((b.take hdr.header.size.val).drop hdr.stylesStart.val).length,
                    false⟩])) := by rw [← hv]; rfl
            rw [hhdr, hstr0, hstrs0, hsty, hstys]
            exact ⟨rfl, fun hz => absurd hn0 (by omega), fun _ => ⟨rfl, rfl⟩,
              fun _ => rfl, fun hz => absurd hz (by omega)⟩
      · rw [if_neg hm] at h
        have hm0 : hdr.styleCount.val = 0 := by omega
        rw [hn0, hm0] at h
        simp only [splitFixedU32, bindOk] at h
        simp only [List.length_nil, gt_iff_lt, Nat.lt_irrefl, if_false,
          Except.ok.injEq, Prod.mk.injEq] at h
        obtain ⟨hv, hrest⟩ := h
        subst hrest
        have hhdr : v.header = hdr := by rw [← hv]; rfl
        have hstr0 : v.strrefs = [] := by rw [← hv]; rfl
        have hstrs0 : v.strings = [] := by rw [← hv]; rfl
        have hsty0 : v.stylerefs = [] := by rw [← hv]; rfl
        have hstys0 : v.styles = [] := by rw [← hv]; rfl
        rw [hhdr, hstr0, hstrs0, hsty0, hstys0]
        exact ⟨rfl, fun hz => absurd hn0 (by omega), fun _ => ⟨rfl, rfl⟩,
          fun hz => absurd hm0 (by omega), fun _ => ⟨rfl, rfl⟩⟩

/-- String-pool decoding never reports a pool-consistency error: the
reference regions are cut with `take`, so the split never leaves a
remainder. -/
theorem ResStringPool.no_inconsistent (b : Bytes) (little : Bool) :
    ResStringPool.from_bytes b little ≠ .error .stringPoolInconsistent ∧
    ResStringPool.from_bytes b little ≠ .error .styleSpanPoolInconsistent := by
  have key : ∀ (bb : Bytes) (n : Nat), bb.length ≤ n * 4 →
      ∀ l r, splitFixedU32 bb n = .ok (l, r) → r.length = 0 := by
    intro bb n hlen l r hs
    obtain ⟨he, _⟩ := splitFixed_len n bb l r hs
    omega
  unfold ResStringPool.from_bytes
  cases hh : ResStringPool_header.from_bytes b true with
  | error e =>
    simp only [bindErr]
    rcases pool_header_err hh with he | he <;> subst he <;>
      exact ⟨(fun hc => by cases hc), (fun hc => by cases hc)⟩
  | ok p =>
    obtain ⟨hdr, b1⟩ := p
    simp only [bindOk]
    by_cases hn : hdr.stringCount.val * 4 > 0
    · by_cases hm : hdr.styleCount.val * 4 > 0
      · simp only [hn, hm, if_pos, if_neg, if_true, if_false, gt_iff_lt, not_lt]
        cases h1 : splitFixedU32 (b1.take (hdr.stringCount.val * 4)) hdr.stringCount.val with
        | error e =>
          simp only [bindErr]
          have he := splitFixed_err h1
          subst he
          exact ⟨(fun hc => by cases hc), (fun hc => by cases hc)⟩
        | ok q =>
          obtain ⟨strrefs, r⟩ := q
          simp only [bindOk]
          have hr0 : r.length = 0 := key _ _ (by simp) _ _ h1
          have hrne : ¬ 0 < r.length := by omega
          rw [if_neg hrne]
          cases h2 : splitFixedU32 ((b1.drop (hdr.stringCount.val * 4)).take
              (hdr.styleCount.val * 4)) hdr.styleCount.val with
          | error e =>
            simp only [bindErr]
            have he := splitFixed_err h2
            subst he
            exact ⟨(fun hc => by cases hc), (fun hc => by cases hc)⟩
          | ok q2 =>
            obtain ⟨stylerefs, r2⟩ := q2
            simp only [bindOk]
            have hr2 : r2.length = 0 := key _ _ (by simp) _ _ h2
            have hrne2 : ¬ 0 < r2.length := by omega
            rw [if_neg hrne2]
            exact ⟨(fun hc => by cases hc), (fun hc => by cases hc)⟩
      · simp only [hn, hm, if_pos, if_neg, if_true, if_false, gt_iff_lt, not_lt]
        have hm0 : hdr.styleCount.val = 0 := by omega
        cases h1 : splitFixedU32 (b1.take (hdr.stringCount.val * 4)) hdr.stringCount.val with
        | error e =>
          simp only [bindErr]
          have he := splitFixed_err h1
          subst he
          exact ⟨(fun hc => by cases hc), (fun hc => by cases hc)⟩
        | ok q =>
          obtain ⟨strrefs, r⟩ := q
          simp only [bindOk]
          have hr0 : r.length = 0 := key _ _ (by simp) _ _ h1
          have hrne : ¬ 0 < r.length := by omega
          rw [if_neg hrne]
          rw [hm0]
          simp only [splitFixedU32, bindOk, List.length_nil, gt_iff_lt,
            Nat.lt_irrefl, if_false]
          exact ⟨(fun hc => by cases hc), (fun hc => by cases hc)⟩
    · by_cases hm : hdr.styleCount.val * 4 > 0
      · simp only [hn, hm, if_pos, if_neg, if_true, if_false, gt_iff_lt, not_lt]
        have hn0 : hdr.stringCount.val = 0 := by omega
        rw [hn0]
        simp only [splitFixedU32, bindOk, List.length_nil, gt_iff_lt,
          Nat.lt_irrefl, if_false]
        cases h2 : splitFixedU32 (b1.take (hdr.styleCount.val * 4)) hdr.styleCount.val with
        | error e =>
          simp only [bindErr]
          have he := splitFixed_err h2
          subst he
          exact ⟨(fun hc => by cases hc), (fun hc => by cases hc)⟩
        | ok q2 =>
          obtain ⟨stylerefs, r2⟩ := q2
          simp only [bindOk]
          have hr2 : r2.length = 0 := key _ _ (by simp) _ _ h2
          have hrne2 : ¬ 0 < r2.length := by omega
          rw [if_neg hrne2]
          exact ⟨(fun hc => by cases hc), (fun hc => by cases hc)⟩
      · simp only [hn, hm, if_pos, if_neg, if_true, if_false, gt_iff_lt, not_lt]
        have hn0 : hdr.stringCount.val = 0 := by omega
        have hm0 : hdr.styleCount.val = 0 := by omega
        rw [hn0, hm0]
        simp only [splitFixedU32, bindOk, List.length_nil, gt_iff_lt,
          Nat.lt_irrefl, if_false]
        exact ⟨(fun hc => by cases hc), (fun hc => by cases hc)⟩

/-! ## Concrete buffers and canonical values used to instantiate the
claim theorems -/

/-- An empty string pool: 28 header bytes, declared size 28. -/
def emptyPoolB : Bytes := [1, 0, 28, 0, 28, 0, 0, 0] ++ List.replicate 20 0

/-- A pool whose declared extent is 38 bytes with one string and one
style: stringsStart 36, stylesStart 37, so the last byte belongs to both
blobs. -/
def cexPoolB : Bytes :=
  [1, 0, 28, 0, 38, 0, 0, 0, 1, 0, 0, 0, 1, 0, 0, 0, 0, 0, 0, 0, 36, 0, 0, 0, 37, 0, 0, 0] ++
  [0, 0, 0, 0] ++ [0, 0, 0, 0] ++ [65, 66]

/-- Re-encoding the pool decoded from cexPoolB yields one extra byte:
the overlap byte is serialized once for the strings and once for the
styles. -/
def cexPoolEncB : Bytes := cexPoolB ++ [66]

/-- A pool whose declared extent (28 bytes) ends before its one string
reference; the reference bytes that follow lie outside the extent. -/
def cex5aB : Bytes :=
  [1, 0, 28, 0, 28, 0, 0, 0, 1, 0, 0, 0, 0, 0, 0, 0, 0, 0, 0, 0, 28, 0, 0, 0, 0, 0, 0, 0] ++
  [170, 187, 204, 221]

/-- Same declared 28 byte extent as cex5aB, different bytes beyond it. -/
def cex5bB : Bytes :=
  [1, 0, 28, 0, 28, 0, 0, 0, 1, 0, 0, 0, 0, 0, 0, 0, 0, 0, 0, 0, 28, 0, 0, 0, 0, 0, 0, 0] ++
  [17, 34, 51, 68]

/-- Like cexPoolB with different blob bytes: one string, one style,
stringsStart 36, stylesStart 37 inside a 38 byte extent. -/
def cex5cB : Bytes :=
  [1, 0, 28, 0, 38, 0, 0, 0, 1, 0, 0, 0, 1, 0, 0, 0, 0, 0, 0, 0, 36, 0, 0, 0, 37, 0, 0, 0] ++
  [0, 0, 0, 0] ++ [0, 0, 0, 0] ++ [67, 68]

/-- A pool with two strictly decreasing string offsets 5, 3: size 42,
stringCount 2, stringsStart 36, six blob bytes. -/
def cex6B : Bytes :=
  [1, 0, 28, 0, 42, 0, 0, 0, 2, 0, 0, 0, 0, 0, 0, 0, 0, 0, 0, 0, 36, 0, 0, 0, 0, 0, 0, 0] ++
  [5, 0, 0, 0] ++ [3, 0, 0, 0] ++ [1, 2, 3, 4, 5, 6]

/-- A table whose header declares size 999 while the whole buffer is 40
bytes: table header, empty pool, zero packages. -/
def tblCexB : Bytes := [2, 0, 12, 0, 231, 3, 0, 0, 0, 0, 0, 0] ++ emptyPoolB

/-- The package header of pkgEmptyB and pkgTypeFirstB, with the declared
package size as a parameter: id 0x7f, zero name, typeStrings 288,
keyStrings 316. -/
def pkgHdrB (sz : Nat) : Bytes :=
  [0, 2, 32, 1] ++ [sz % 256, sz / 256 % 256, 0, 0] ++ [127, 0, 0, 0] ++
  List.replicate 256 0 ++ [32, 1, 0, 0] ++ [0, 0, 0, 0] ++ [60, 1, 0, 0] ++ [0, 0, 0, 0] ++
  List.replicate 4 0

/-- A minimal TYPE chunk: type 0x201, headerSize 24, size 24, config of
size 4. -/
def tyB : Bytes := [1, 2, 24, 0, 24, 0, 0, 0, 1, 0, 0, 0, 0, 0, 0, 0, 0, 0, 0, 0, 4, 0, 0, 0]

/-- A package whose scan region is empty: header and two empty pools,
declared size 344. -/
def pkgEmptyB : Bytes := pkgHdrB 344 ++ emptyPoolB ++ emptyPoolB

/-- A package whose first scanned chunk is a TYPE chunk with no
preceding TYPE_SPEC, declared size 368. -/
def pkgTypeFirstB : Bytes := pkgHdrB 368 ++ emptyPoolB ++ emptyPoolB ++ tyB

/-- Canonical witness values for each structure. -/
def chW : ResChunk_header := ⟨2, ⟨12, true⟩, ⟨107436, true⟩⟩

def thW : ResTable_header := ⟨⟨2, ⟨12, true⟩, ⟨40, true⟩⟩, ⟨0, true⟩⟩

def phW : ResStringPool_header :=
⟨⟨1, ⟨28, true⟩, ⟨28, true⟩⟩, ⟨0, true⟩, ⟨0, true⟩, 0, ⟨0, true⟩, ⟨0, true⟩⟩

def poolW : ResStringPool := ⟨phW, [], [], [], []⟩

def tshW : ResTable_typeSpec_header :=
⟨⟨514, ⟨16, true⟩, ⟨16, true⟩⟩, ⟨1⟩, ⟨0⟩, ⟨0, true⟩, ⟨0, true⟩⟩

def tsW : ResTable_typeSpec := ⟨tshW, []⟩

def tyhW : ResTable_type_header :=
⟨⟨513, ⟨24, true⟩, ⟨24, true⟩⟩, ⟨1⟩, ⟨0⟩, ⟨0, true⟩, ⟨0, true⟩, ⟨0, true⟩, ⟨⟨4, true⟩, []⟩⟩

def tyW : ResTable_type := ⟨tyhW, []⟩

def pkgHW : ResTable_package_header :=
⟨⟨512, ⟨288, true⟩, ⟨360, true⟩⟩, ⟨127, true⟩, List.replicate 256 0, ⟨288, true⟩, ⟨0, true⟩,
  ⟨316, true⟩, ⟨0, true⟩⟩

def pkgW : ResTable_package := ⟨pkgHW, poolW, poolW, [some [.typeSpec tsW]]⟩

/-- The encoding of pkgW. -/
def pkgWB : Bytes := pkgHW.bytes ++ poolW.bytes ++ poolW.bytes ++ tsW.bytes

def thW2 : ResTable_header := ⟨⟨2, ⟨12, true⟩, ⟨400, true⟩⟩, ⟨1, true⟩⟩

def tblWv : ResTable := ⟨thW2, poolW, [pkgW]⟩

/-- The encoding of tblWv. -/
def tblWB : Bytes := thW2.bytes ++ poolW.bytes ++ pkgWB

/-! ## The claims -/

/-- C1: for every canonical (well-formed) value of each codec structure
— chunk header, table header, string-pool header, string pool, typeSpec
header, typeSpec, type header, type, package header, package, table —
decoding its encoding followed by any remainder returns exactly that
value and that remainder, i.e. the decoder consumes exactly the encoded
prefix.  (Canonical string pools have strings or styles but not both:
the round trip fails otherwise, see the counterexample.) -/
theorem claim_C1 :
    (∀ (v : ResChunk_header) (rest : Bytes) (little : Bool), v.canon →
      ResChunk_header.from_bytes (v.bytes ++ rest) little = .ok (v, rest)) ∧
    (∀ (v : ResTable_header) (rest : Bytes) (little : Bool), v.canon →
      ResTable_header.from_bytes (v.bytes ++ rest) little = .ok (v, rest)) ∧
    (∀ (v : ResStringPool_header) (rest : Bytes) (little : Bool), v.canon →
      ResStringPool_header.from_bytes (v.bytes ++ rest) little = .ok (v, rest)) ∧
    (∀ (v : ResStringPool) (rest : Bytes) (little : Bool), v.canon →
      ResStringPool.from_bytes (v.bytes ++ rest) little = .ok (v, rest)) ∧
    (∀ (v : ResTable_typeSpec_header) (rest : Bytes) (little : Bool), v.canon →
      ResTable_typeSpec_header.from_bytes (v.bytes ++ rest) little = .ok (v, rest)) ∧
    (∀ (v : ResTable_typeSpec) (rest : Bytes) (little : Bool), v.canon →
      ResTable_typeSpec.from_bytes (v.bytes ++ rest) little = .ok (v, rest)) ∧
    (∀ (v : ResTable_type_header) (rest : Bytes) (little : Bool), v.canon →
      ResTable_type_header.from_bytes (v.bytes ++ rest) little = .ok (v, rest)) ∧
    (∀ (v : ResTable_type) (rest : Bytes) (little : Bool), v.canon →
      ResTable_type.from_bytes (v.bytes ++ rest) little = .ok (v, rest)) ∧
    (∀ (v : ResTable_package_header) (rest : Bytes), v.canon →
      ResTable_package_header.from_bytes (v.bytes ++ rest) = .ok (v, rest)) ∧
    (∀ (v : ResTable_package) (bs rest : Bytes) (little : Bool), v.canon →
      ResTable_package.bytesE v = .ok bs →
      ResTable_package.from_bytes (bs ++ rest) little = .ok (v, rest)) ∧
    (∀ (v : ResTable) (bs rest : Bytes) (little : Bool), v.canon →
      ResTable.bytesE v = .ok bs →
      ResTable.from_bytes (bs ++ rest) little = .ok (v, rest)) :=
⟨chunk_rt, table_header_rt, pool_header_rt, pool_rt, typeSpec_header_rt, typeSpec_rt,
  type_header_rt, type_rt, pkg_header_rt, package_rt, table_rt⟩

set_option maxRecDepth 100000 in
/-- C1 witness: the round trip at concrete canonical values of every
structure, with remainder [7]. -/
theorem claim_C1_witness :
    ResChunk_header.from_bytes (chW.bytes ++ [7]) true = .ok (chW, [7]) ∧
    ResTable_header.from_bytes (thW.bytes ++ [7]) true = .ok (thW, [7]) ∧
    ResStringPool_header.from_bytes (phW.bytes ++ [7]) true = .ok (phW, [7]) ∧
    ResStringPool.from_bytes (poolW.bytes ++ [7]) true = .ok (poolW, [7]) ∧
    ResTable_typeSpec_header.from_bytes (tshW.bytes ++ [7]) true = .ok (tshW, [7]) ∧
    ResTable_typeSpec.from_bytes (tsW.bytes ++ [7]) true = .ok (tsW, [7]) ∧
    ResTable_type_header.from_bytes (tyhW.bytes ++ [7]) true = .ok (tyhW, [7]) ∧
    ResTable_type.from_bytes (tyW.bytes ++ [7]) true = .ok (tyW, [7]) ∧
    ResTable_package_header.from_bytes (pkgHW.bytes ++ [7]) = .ok (pkgHW, [7]) ∧
    ResTable_package.from_bytes (pkgWB ++ [7]) true = .ok (pkgW, [7]) ∧
    ResTable.from_bytes (tblWB ++ [7]) true = .ok (tblWv, [7]) := by
  have htsW : tsW.canon := by decide
  have hpkg : pkgW.canon :=
    ⟨by decide, by decide, by decide, by decide, by decide, by decide,
      fun o ho => ⟨[PChunk.typeSpec tsW], List.mem_singleton.mp ho,
        htsW, fun c hc => absurd hc (List.not_mem_nil c)⟩,
      by decide⟩
  have htbl : tblWv.canon := by
    refine ⟨by decide, by decide, ?_, by decide⟩
    intro p hp
    rw [List.mem_singleton.mp hp]
    exact hpkg
  exact ⟨claim_C1.1 chW [7] true (by decide),
    claim_C1.2.1 thW [7] true (by decide),
    claim_C1.2.2.1 phW [7] true (by decide),
    claim_C1.2.2.2.1 poolW [7] true (by decide),
    claim_C1.2.2.2.2.1 tshW [7] true (by decide),
    claim_C1.2.2.2.2.2.1 tsW [7] true (by decide),
    claim_C1.2.2.2.2.2.2.1 tyhW [7] true (by decide),
    claim_C1.2.2.2.2.2.2.2.1 tyW [7] true (by decide),
    claim_C1.2.2.2.2.2.2.2.2.1 pkgHW [7] (by decide),
    claim_C1.2.2.2.2.2.2.2.2.2.1 pkgW pkgWB [7] true hpkg rfl,
    claim_C1.2.2.2.2.2.2.2.2.2.2 tblWv tblWB [7] true htbl rfl⟩

set_option maxRecDepth 100000 in
/-- C1 counterexample: a pool holding both a string and a style decodes
from its whole 38-byte extent, but re-encoding the decoded value yields
39 bytes, not the consumed prefix: decode is not a section of encode on
all well-formed inputs. -/
theorem claim_C1_cex :
    (ResStringPool.from_bytes cexPoolB true).toOption.map
      (fun p => (ResStringPool.bytes p.1, p.2)) = some (cexPoolEncB, []) ∧
    cexPoolEncB ≠ cexPoolB := by decide

/-- C2: the chunk-header decoder ignores the passed byte-order flag (the
type tag and every other field are read little-endian either way), the
bytes 02 00 0c 00 ac a3 01 00 decode to a header with
type = RES_TABLE_TYPE, headerSize = 12 and size = 0x1a3ac, and encoding
that header reproduces the identical 8 bytes (the type tag is written
little-endian). -/
theorem claim_C2 :
    (∀ (b : Bytes) (l1 l2 : Bool),
      ResChunk_header.from_bytes b l1 = ResChunk_header.from_bytes b l2) ∧
    ResChunk_header.from_bytes [2, 0, 12, 0, 172, 163, 1, 0] false =
      .ok (⟨RES_TABLE_TYPE, ⟨12, true⟩, ⟨107436, true⟩⟩, []) ∧
    ResChunk_header.bytes ⟨RES_TABLE_TYPE, ⟨12, true⟩, ⟨107436, true⟩⟩ =
      [2, 0, 12, 0, 172, 163, 1, 0] :=
⟨fun b l1 l2 => rfl, rfl, by decide⟩

/-- C3: every chunk-wrapping structure rejects a header whose type
differs from its expected ResourceType, but the error carries only the
expected type: the got field of the mismatch error is none, not the
actual type (the source raises
ChunkHeaderWrongTypeException(expected) and leaves chunkType at its
None default). -/
theorem claim_C3 :
    (∀ (ch : ResChunk_header) (pc : U32), ch.type ≠ RES_TABLE_TYPE →
      ResTable_header.init ch pc = .error (.chunkHeaderWrongType [RES_TABLE_TYPE] none)) ∧
    (∀ (ch : ResChunk_header) (n m : U32) (fl : Flags) (ss ts : U32),
      ch.type ≠ RES_STRING_POOL_TYPE →
      ResStringPool_header.init ch n m fl ss ts =
        .error (.chunkHeaderWrongType [RES_STRING_POOL_TYPE] none)) ∧
    (∀ (ch : ResChunk_header) (id r0 : U8) (r1 : U16) (ec : U32),
      ch.type ≠ RES_TABLE_TYPE_SPEC_TYPE →
      ResTable_typeSpec_header.init ch id r0 r1 ec =
        .error (.chunkHeaderWrongType [RES_TABLE_TYPE_SPEC_TYPE] none)) ∧
    (∀ (ch : ResChunk_header) (id r0 : U8) (r1 : U16) (ec es : U32) (cfg : ResTable_config),
      ch.type ≠ RES_TABLE_TYPE_TYPE →
      ResTable_type_header.init ch id r0 r1 ec es cfg =
        .error (.chunkHeaderWrongType [RES_TABLE_TYPE_TYPE] none)) ∧
    (∀ (ch : ResChunk_header) (id : U32) (nm : NameArg) (ts lpt ks lpk : U32),
      ch.type ≠ RES_TABLE_PACKAGE_TYPE →
      ResTable_package_header.init ch id nm ts lpt ks lpk =
        .error (.chunkHeaderWrongType [RES_TABLE_PACKAGE_TYPE] none)) := by
  refine ⟨fun ch pc h => ?_, fun ch n m fl ss ts h => ?_, fun ch id r0 r1 ec h => ?_,
    fun ch id r0 r1 ec es cfg h => ?_, fun ch id nm ts lpt ks lpk h => ?_⟩
  · rw [ResTable_header.init, if_pos h]
  · rw [ResStringPool_header.init, if_pos h]
  · rw [ResTable_typeSpec_header.init, if_pos h]
  · rw [ResTable_type_header.init, if_pos h]
  · rw [ResTable_package_header.init.eq_def, if_pos h]

/-- C3 witness: a RES_NULL_TYPE chunk header is rejected by all five
wrappers, each reporting only its own expected type. -/
theorem claim_C3_witness :
    ResTable_header.init ⟨0, ⟨8, true⟩, ⟨8, true⟩⟩ ⟨0, true⟩ =
      .error (.chunkHeaderWrongType [RES_TABLE_TYPE] none) ∧
    ResStringPool_header.init ⟨0, ⟨8, true⟩, ⟨8, true⟩⟩ ⟨0, true⟩ ⟨0, true⟩ 0 ⟨0, true⟩
        ⟨0, true⟩ = .error (.chunkHeaderWrongType [RES_STRING_POOL_TYPE] none) ∧
    ResTable_typeSpec_header.init ⟨0, ⟨8, true⟩, ⟨8, true⟩⟩ ⟨1⟩ ⟨0⟩ ⟨0, true⟩ ⟨0, true⟩ =
      .error (.chunkHeaderWrongType [RES_TABLE_TYPE_SPEC_TYPE] none) ∧
    ResTable_type_header.init ⟨0, ⟨8, true⟩, ⟨8, true⟩⟩ ⟨1⟩ ⟨0⟩ ⟨0, true⟩ ⟨0, true⟩ ⟨0, true⟩
        ⟨⟨4, true⟩, []⟩ = .error (.chunkHeaderWrongType [RES_TABLE_TYPE_TYPE] none) ∧
    ResTable_package_header.init ⟨0, ⟨8, true⟩, ⟨8, true⟩⟩ ⟨127, true⟩ .notBytes ⟨0, true⟩
        ⟨0, true⟩ ⟨0, true⟩ ⟨0, true⟩ =
      .error (.chunkHeaderWrongType [RES_TABLE_PACKAGE_TYPE] none) :=
⟨claim_C3.1 ⟨0, ⟨8, true⟩, ⟨8, true⟩⟩ ⟨0, true⟩ (by decide),
  claim_C3.2.1 ⟨0, ⟨8, true⟩, ⟨8, true⟩⟩ ⟨0, true⟩ ⟨0, true⟩ 0 ⟨0, true⟩ ⟨0, true⟩ (by decide),
  claim_C3.2.2.1 ⟨0, ⟨8, true⟩, ⟨8, true⟩⟩ ⟨1⟩ ⟨0⟩ ⟨0, true⟩ ⟨0, true⟩ (by decide),
  claim_C3.2.2.2.1 ⟨0, ⟨8, true⟩, ⟨8, true⟩⟩ ⟨1⟩ ⟨0⟩ ⟨0, true⟩ ⟨0, true⟩ ⟨0, true⟩
    ⟨⟨4, true⟩, []⟩ (by decide),
  claim_C3.2.2.2.2 ⟨0, ⟨8, true⟩, ⟨8, true⟩⟩ ⟨127, true⟩ .notBytes ⟨0, true⟩ ⟨0, true⟩
    ⟨0, true⟩ ⟨0, true⟩ (by decide)⟩

/-- C3 counterexample: the error value the guard produces for a
RES_NULL_TYPE header offered to the table wrapper does not mention the
actual type anywhere: it differs from the error that would report
expected RES_TABLE_TYPE and got RES_NULL_TYPE. -/
theorem claim_C3_cex :
    ResTable_header.init ⟨0, ⟨12, true⟩, ⟨12, true⟩⟩ ⟨0, true⟩ =
      .error (.chunkHeaderWrongType [RES_TABLE_TYPE] none) ∧
    (Err.chunkHeaderWrongType [RES_TABLE_TYPE] none ≠
      Err.chunkHeaderWrongType [RES_TABLE_TYPE] (some RES_NULL_TYPE)) := by
  refine ⟨?_, by decide⟩
  rw [ResTable_header.init, if_pos (by decide)]

/-- C4: every successful package decode reads the header, decodes the
two string pools at their recorded offsets inside the truncated package
extent, and resumes the chunk scan on whichever pool leftover is
shorter (the pool that ends later); and each scan step peeks a chunk
header and dispatches: TYPE_SPEC flushes the open group and starts a
new one, TYPE appends to the open group, and any other tag fails with
the mismatch error whose expected set is [TYPE_SPEC, TYPE]; the scan
ends when the region is exhausted. -/
theorem claim_C4 :
    (∀ (b : Bytes) (little : Bool) (v : ResTable_package) (rest : Bytes),
      ResTable_package.from_bytes b little = .ok (v, rest) →
      ∃ hb at_ ak,
        ResTable_package_header.from_bytes b = .ok (v.header, hb) ∧
        ResStringPool.from_bytes
          ((b.take v.header.header.size.val).drop v.header.typeStrings.val) true =
          .ok (v.typeStrings, at_) ∧
        ResStringPool.from_bytes
          ((b.take v.header.header.size.val).drop v.header.keyStrings.val) true =
          .ok (v.keyStrings, ak) ∧
        scanLoop (if ak.length < at_.length then ak else at_).length
          (if ak.length < at_.length then ak else at_) [] none = .ok v.types ∧
        rest = b.drop v.header.header.size.val) ∧
    (∀ (f : Nat) (b : Bytes) (types : List (Option (List PChunk)))
      (spec : Option (List PChunk)) (hdr : ResChunk_header) (hb : Bytes)
      (ts : ResTable_typeSpec) (b1 : Bytes), b ≠ [] →
      ResChunk_header.from_bytes b true = .ok (hdr, hb) →
      hdr.type = RES_TABLE_TYPE_SPEC_TYPE →
      ResTable_typeSpec.from_bytes b true = .ok (ts, b1) →
      scanLoop (f + 1) b types spec =
        scanLoop f b1 (flushSpec types spec) (some [.typeSpec ts])) ∧
    (∀ (f : Nat) (b : Bytes) (types : List (Option (List PChunk))) (s : List PChunk)
      (hdr : ResChunk_header) (hb : Bytes) (ty : ResTable_type) (b1 : Bytes), b ≠ [] →
      ResChunk_header.from_bytes b true = .ok (hdr, hb) →
      hdr.type = RES_TABLE_TYPE_TYPE →
      ResTable_type.from_bytes b true = .ok (ty, b1) →
      scanLoop (f + 1) b types (some s) = scanLoop f b1 types (some (s ++ [.type ty]))) ∧
    (∀ (f : Nat) (b : Bytes) (types : List (Option (List PChunk)))
      (spec : Option (List PChunk)) (hdr : ResChunk_header) (hb : Bytes), b ≠ [] →
      ResChunk_header.from_bytes b true = .ok (hdr, hb) →
      hdr.type ≠ RES_TABLE_TYPE_SPEC_TYPE → hdr.type ≠ RES_TABLE_TYPE_TYPE →
      scanLoop (f + 1) b types spec =
        .error (.chunkHeaderWrongType [RES_TABLE_TYPE_SPEC_TYPE, RES_TABLE_TYPE_TYPE]
          (some hdr.type))) ∧
    (∀ (f : Nat) (types : List (Option (List PChunk))) (spec : Option (List PChunk)),
      scanLoop f [] types spec = .ok (types ++ [spec])) := by
  refine ⟨?_, fun f b types spec hdr hb ts b1 h1 h2 h3 h4 =>
      scanLoop_spec_step h1 h2 h3 h4,
    fun f b types s hdr hb ty b1 h1 h2 h3 h4 => scanLoop_type_step h1 h2 h3 h4,
    fun f b types spec hdr hb h1 h2 h3 h4 => scanLoop_other h1 h2 h3 h4,
    scanLoop_nil⟩
  intro b little v rest h
  unfold ResTable_package.from_bytes at h
  cases hh : ResTable_package_header.from_bytes b with
  | error e => rw [hh] at h; cases h
  | ok p =>
    obtain ⟨hdr, b1⟩ := p
    rw [hh] at h
    simp only [bindOk] at h
    cases hts : ResStringPool.from_bytes
        ((b.take hdr.header.size.val).drop hdr.typeStrings.val) true with
    | error e => rw [hts] at h; cases h
    | ok q =>
      obtain ⟨tsp, at_⟩ := q
      rw [hts] at h
      simp only [bindOk] at h
      cases hks : ResStringPool.from_bytes
          ((b.take hdr.header.size.val).drop hdr.keyStrings.val) true with
      | error e => rw [hks] at h; cases h
      | ok q2 =>
        obtain ⟨ksp, ak⟩ := q2
        rw [hks] at h
        simp only [bindOk] at h
        cases hscan : scanLoop (if ak.length < at_.length then ak else at_).length
            (if ak.length < at_.length then ak else at_) [] none with
        | error e => rw [hscan] at h; cases h
        | ok tys =>
          rw [hscan] at h
          simp only [bindOk, Except.ok.injEq, Prod.mk.injEq] at h
          obtain ⟨hv, hrest⟩ := h
          subst hv
          subst hrest
          exact ⟨b1, at_, ak, rfl, hts, hks, hscan, rfl⟩

set_option maxRecDepth 100000 in
/-- C4 witness: the resume-and-scan characterization at a concrete
decoded package, and each dispatch rule at a concrete buffer: a
TYPE_SPEC chunk, a TYPE chunk, and a string-pool chunk in scan
position. -/
theorem claim_C4_witness :
    (∃ hb at_ ak,
      ResTable_package_header.from_bytes (pkgWB ++ [7]) = .ok (pkgW.header, hb) ∧
      ResStringPool.from_bytes
        (((pkgWB ++ [7]).take pkgW.header.header.size.val).drop
          pkgW.header.typeStrings.val) true = .ok (pkgW.typeStrings, at_) ∧
      ResStringPool.from_bytes
        (((pkgWB ++ [7]).take pkgW.header.header.size.val).drop
          pkgW.header.keyStrings.val) true = .ok (pkgW.keyStrings, ak) ∧
      scanLoop (if ak.length < at_.length then ak else at_).length
        (if ak.length < at_.length then ak else at_) [] none = .ok pkgW.types ∧
      [7] = (pkgWB ++ [7]).drop pkgW.header.header.size.val) ∧
    scanLoop 1 tsW.bytes [] none = scanLoop 0 [] (flushSpec [] none) (some [.typeSpec tsW]) ∧
    scanLoop 1 tyW.bytes [] (some [.typeSpec tsW]) =
      scanLoop 0 [] [] (some ([.typeSpec tsW] ++ [.type tyW])) ∧
    scanLoop 1 emptyPoolB [] none =
      .error (.chunkHeaderWrongType [RES_TABLE_TYPE_SPEC_TYPE, RES_TABLE_TYPE_TYPE] (some 1)) ∧
    scanLoop 5 [] [some [.typeSpec tsW]] none = .ok ([some [.typeSpec tsW]] ++ [none]) :=
⟨claim_C4.1 (pkgWB ++ [7]) true pkgW [7] rfl,
  claim_C4.2.1 0 tsW.bytes [] none ⟨514, ⟨16, true⟩, ⟨16, true⟩⟩ [1, 0, 0, 0, 0, 0, 0, 0]
    tsW [] (by decide) rfl rfl rfl,
  claim_C4.2.2.1 0 tyW.bytes [] [.typeSpec tsW] ⟨513, ⟨24, true⟩, ⟨24, true⟩⟩
    [1, 0, 0, 0, 0, 0, 0, 0, 0, 0, 0, 0, 4, 0, 0, 0] tyW [] (by decide) rfl rfl rfl,
  claim_C4.2.2.2.1 0 emptyPoolB [] none ⟨1, ⟨28, true⟩, ⟨28, true⟩⟩
    (List.replicate 20 0) (by decide) rfl (by decide) (by decide),
  claim_C4.2.2.2.2 5 [some [.typeSpec tsW]] none⟩

/-- The pool decoded from cex5cB. -/
def poolC5v : ResStringPool :=
⟨⟨⟨1, ⟨28, true⟩, ⟨38, true⟩⟩, ⟨1, true⟩, ⟨1, true⟩, 0, ⟨36, true⟩, ⟨37, true⟩⟩,
  [⟨0, true⟩], [⟨0, true⟩], [[67, 68]], [[68]]⟩

/-- C5: what a successful string-pool decode actually consumes: the
remainder is the input past the declared size, but the reference list is
split from the UNtruncated remainder after the 28-byte header (so bytes
past the declared extent can be consumed as refs), and the string blob
runs from stringsStart to the end of the truncated extent even when
styleCount > 0 (it is not cut at the style blob). -/
theorem claim_C5 : ∀ (b : Bytes) (little : Bool) (v : ResStringPool) (rest : Bytes),
    ResStringPool.from_bytes b little = .ok (v, rest) →
    rest = b.drop v.header.header.size.val ∧
    (0 < v.header.stringCount.val →
      splitFixedU32 ((b.drop 28).take (v.header.stringCount.val * 4))
          v.header.stringCount.val = .ok (v.strrefs, []) ∧
      v.strings = splitVarStrings
        ((b.take v.header.header.size.val).drop v.header.stringsStart.val)
        (offsetsToLength (v.strrefs ++
          [⟨((b.take v.header.header.size.val).drop v.header.stringsStart.val).length,
            false⟩]))) ∧
    (v.header.stringCount.val = 0 → v.strrefs = [] ∧ v.strings = []) ∧
    (0 < v.header.styleCount.val →
      v.styles = splitVarStrings
        ((b.take v.header.header.size.val).drop v.header.stylesStart.val)
        (offsetsToLength (v.stylerefs ++
          [⟨((b.take v.header.header.size.val).drop v.header.stylesStart.val).length,
            false⟩]))) ∧
    (v.header.styleCount.val = 0 → v.stylerefs = [] ∧ v.styles = []) :=
fun b little v rest h => ResStringPool.decode_inv h

set_option maxRecDepth 100000 in
/-- C5 witness: the characterization at the concrete pool cex5cB, with
the inner count conditions discharged. -/
theorem claim_C5_witness :
    splitFixedU32 ((cex5cB.drop 28).take (poolC5v.header.stringCount.val * 4))
        poolC5v.header.stringCount.val = .ok (poolC5v.strrefs, []) ∧
    poolC5v.strings = splitVarStrings
      ((cex5cB.take poolC5v.header.header.size.val).drop poolC5v.header.stringsStart.val)
      (offsetsToLength (poolC5v.strrefs ++
        [⟨((cex5cB.take poolC5v.header.header.size.val).drop
            poolC5v.header.stringsStart.val).length, false⟩])) ∧
    poolC5v.styles = splitVarStrings
      ((cex5cB.take poolC5v.header.header.size.val).drop poolC5v.header.stylesStart.val)
      (offsetsToLength (poolC5v.stylerefs ++
        [⟨((cex5cB.take poolC5v.header.header.size.val).drop
            poolC5v.header.stylesStart.val).length, false⟩])) := by
  have h := claim_C5 cex5cB true poolC5v [] rfl
  exact ⟨(h.2.1 (by decide)).1, (h.2.1 (by decide)).2, h.2.2.2.1 (by decide)⟩

set_option maxRecDepth 100000 in
/-- C5 counterexample: cex5aB and cex5bB agree on the whole declared
28-byte extent yet decode to different reference lists, so bytes past
the extent are consumed; and in cex5cB (styleCount = 1) the decoded
string [67, 68] extends past stylesStart = 37, overlapping the style
blob [68] instead of stopping where the styles begin. -/
theorem claim_C5_cex :
    cex5aB.take 28 = cex5bB.take 28 ∧
    (ResStringPool.from_bytes cex5aB true).toOption.map
      (fun p => p.1.strrefs.map U32.val) = some [3721182122] ∧
    (ResStringPool.from_bytes cex5bB true).toOption.map
      (fun p => p.1.strrefs.map U32.val) = some [1144201745] ∧
    (ResStringPool.from_bytes cex5cB true).toOption.map
      (fun p => (p.1.strings, p.1.styles)) = some ([[67, 68]], [[68]]) := by decide

/-- C6: string lengths are derived as differences of consecutive
offsets (with the call site appending the blob length as a synthetic
final offset), but the bookkeeping is never enforced: string-pool
decoding can never fail with the pool-inconsistency errors, because the
reference regions are cut with take and the split never leaves a
remainder. -/
theorem claim_C6 :
    (∀ (b : Bytes) (little : Bool),
      ResStringPool.from_bytes b little ≠ .error .stringPoolInconsistent ∧
      ResStringPool.from_bytes b little ≠ .error .styleSpanPoolInconsistent) ∧
    (∀ (u w : U32) (t : List U32), offsetsToLength (u :: w :: t) =
      ((w.val : Int) - (u.val : Int)) :: offsetsToLength (w :: t)) ∧
    (∀ (u : U32), offsetsToLength [u] = []) :=
⟨ResStringPool.no_inconsistent, fun u w t => rfl, fun u => rfl⟩

set_option maxRecDepth 100000 in
/-- C6 counterexample: a pool whose two string offsets strictly
decrease (5 then 3) decodes successfully instead of failing with
StringPoolInconsistent; the negative derived length is fed to the
Python-style slicer, producing the strings below. -/
theorem claim_C6_cex :
    (ResStringPool.from_bytes cex6B true).toOption.map
      (fun p => (p.1.strrefs.map U32.val, p.1.strings, p.2)) =
      some ([5, 3], [[1, 2, 3, 4], [5, 6]], []) := by decide

set_option maxRecDepth 100000 in
/-- C7: the package-header name law: the 10-byte name
q\0w\0e\0r\0\0\0 is stored padded with 246 zero bytes to 256 bytes;
in general a valid bytes name is padded with zeros to 256; a name
longer than 256 bytes is rejected, a name whose last two bytes are not
0 0 is rejected, and a non-bytes name is rejected. -/
theorem claim_C7 :
    (ResTable_package_header.initDefault ⟨127, true⟩
        (.bytes [113, 0, 119, 0, 101, 0, 114, 0, 0, 0]) ⟨288, true⟩ ⟨0, true⟩ ⟨316, true⟩
        ⟨0, true⟩).toOption.map (fun v => v.name) =
      some ([113, 0, 119, 0, 101, 0, 114, 0, 0, 0] ++ List.replicate 246 0) ∧
    (∀ (hdr : ResChunk_header) (id : U32) (nm : Bytes) (ts lpt ks lpk : U32),
      hdr.type = RES_TABLE_PACKAGE_TYPE → nm.length ≤ 256 → pyLastTwo nm = [0, 0] →
      ResTable_package_header.init hdr id (.bytes nm) ts lpt ks lpk =
        .ok ⟨hdr, id, nm ++ List.replicate (256 - nm.length) 0, ts, lpt, ks, lpk⟩) ∧
    (∀ (hdr : ResChunk_header) (id : U32) (nm : Bytes) (ts lpt ks lpk : U32),
      hdr.type = RES_TABLE_PACKAGE_TYPE → nm.length > 256 →
      ResTable_package_header.init hdr id (.bytes nm) ts lpt ks lpk =
        .error (.nameTooLong nm.length 128)) ∧
    (∀ (hdr : ResChunk_header) (id : U32) (nm : Bytes) (ts lpt ks lpk : U32),
      hdr.type = RES_TABLE_PACKAGE_TYPE → nm.length ≤ 256 → pyLastTwo nm ≠ [0, 0] →
      ResTable_package_header.init hdr id (.bytes nm) ts lpt ks lpk =
        .error .nameNotNullTerminated) ∧
    (∀ (hdr : ResChunk_header) (id : U32) (ts lpt ks lpk : U32),
      hdr.type = RES_TABLE_PACKAGE_TYPE →
      ResTable_package_header.init hdr id .notBytes ts lpt ks lpk =
        .error .nameMustBeBytes) := by
  refine ⟨by decide, fun hdr id nm ts lpt ks lpk hty hlen hlast => ?_,
    fun hdr id nm ts lpt ks lpk hty hlen => ?_,
    fun hdr id nm ts lpt ks lpk hty hlen hlast => ?_,
    fun hdr id ts lpt ks lpk hty => ?_⟩
  · rw [ResTable_package_header.init.eq_def, if_neg (by simp [hty])]
    dsimp only
    rw [if_neg (by omega), if_neg (not_not_intro hlast)]
  · rw [ResTable_package_header.init.eq_def, if_neg (by simp [hty])]
    dsimp only
    rw [if_pos (by omega)]
  · rw [ResTable_package_header.init.eq_def, if_neg (by simp [hty])]
    dsimp only
    rw [if_neg (by omega), if_pos hlast]
  · rw [ResTable_package_header.init.eq_def, if_neg (by simp [hty])]

set_option maxRecDepth 100000 in
/-- C7 witness: the name rules at concrete inputs: the two-byte name
[0, 0] padded to 256 bytes, a 300-byte name rejected as too long, the
name [1, 2] rejected as not null-terminated, and a non-bytes name
rejected. -/
theorem claim_C7_witness :
    ResTable_package_header.init ⟨512, ⟨288, true⟩, ⟨360, true⟩⟩ ⟨1, true⟩ (.bytes [0, 0])
        ⟨0, true⟩ ⟨0, true⟩ ⟨0, true⟩ ⟨0, true⟩ =
      .ok ⟨⟨512, ⟨288, true⟩, ⟨360, true⟩⟩, ⟨1, true⟩, [0, 0] ++ List.replicate 254 0,
        ⟨0, true⟩, ⟨0, true⟩, ⟨0, true⟩, ⟨0, true⟩⟩ ∧
    ResTable_package_header.init ⟨512, ⟨288, true⟩, ⟨360, true⟩⟩ ⟨1, true⟩
        (.bytes (List.replicate 300 1)) ⟨0, true⟩ ⟨0, true⟩ ⟨0, true⟩ ⟨0, true⟩ =
      .error (.nameTooLong (List.replicate 300 1).length 128) ∧
    ResTable_package_header.init ⟨512, ⟨288, true⟩, ⟨360, true⟩⟩ ⟨1, true⟩ (.bytes [1, 2])
        ⟨0, true⟩ ⟨0, true⟩ ⟨0, true⟩ ⟨0, true⟩ = .error .nameNotNullTerminated ∧
    ResTable_package_header.init ⟨512, ⟨288, true⟩, ⟨360, true⟩⟩ ⟨1, true⟩ .notBytes
        ⟨0, true⟩ ⟨0, true⟩ ⟨0, true⟩ ⟨0, true⟩ = .error .nameMustBeBytes :=
⟨claim_C7.2.1 ⟨512, ⟨288, true⟩, ⟨360, true⟩⟩ ⟨1, true⟩ [0, 0] ⟨0, true⟩ ⟨0, true⟩ ⟨0, true⟩
    ⟨0, true⟩ rfl (by decide) (by decide),
  claim_C7.2.2.1 ⟨512, ⟨288, true⟩, ⟨360, true⟩⟩ ⟨1, true⟩ (List.replicate 300 1) ⟨0, true⟩
    ⟨0, true⟩ ⟨0, true⟩ ⟨0, true⟩ rfl (by decide),
  claim_C7.2.2.2.1 ⟨512, ⟨288, true⟩, ⟨360, true⟩⟩ ⟨1, true⟩ [1, 2] ⟨0, true⟩ ⟨0, true⟩
    ⟨0, true⟩ ⟨0, true⟩ rfl (by decide) (by decide),
  claim_C7.2.2.2.2 ⟨512, ⟨288, true⟩, ⟨360, true⟩⟩ ⟨1, true⟩ ⟨0, true⟩ ⟨0, true⟩ ⟨0, true⟩
    ⟨0, true⟩ rfl⟩

/-- C8: for canonical (self-consistent) string pools, typeSpec chunks,
type chunks and packages, the encoded length equals the size declared
in the chunk header.  (The law does not extend to ResTable: its decoder
never consults the declared table size, see the counterexample.) -/
theorem claim_C8 :
    (∀ (v : ResStringPool), v.canon → v.bytes.length = v.header.header.size.val) ∧
    (∀ (v : ResTable_typeSpec), v.canon → v.bytes.length = v.header.header.size.val) ∧
    (∀ (v : ResTable_type), v.canon → v.bytes.length = v.header.header.size.val) ∧
    (∀ (v : ResTable_package) (bs : Bytes), v.canon → ResTable_package.bytesE v = .ok bs →
      bs.length = v.header.header.size.val) := by
  refine ⟨pool_bytes_len, fun v h => ?_, fun v h => ?_, fun v bs h hbs => ?_⟩
  · rw [typeSpec_bytes_len v h]
    exact h.2.2.symm
  · have h1 := type_bytes_len v h
    obtain ⟨hhd, hhs, hsz⟩ := h
    have h2 : v.header.config.size.val = 4 + v.header.config.notimpl.length :=
      hhd.2.2.2.2.2.2.2.2
    omega
  · obtain ⟨hdr, tsp, ksp, types⟩ := v
    obtain ⟨hhdr, htsp, hksp, h4, h5, h6, hall, hsz⟩ := h
    simp only at hhdr htsp hksp hall hsz
    obtain ⟨gs, hgs, hcg⟩ := types_shape types hall
    subst hgs
    simp only [ResTable_package.bytesE] at hbs
    rw [flattenGroups_some] at hbs
    simp only [bindOk, Except.ok.injEq] at hbs
    subst hbs
    rw [typesFlatLen_some] at hsz
    simp only [List.length_append]
    rw [pkg_header_bytes_len hdr hhdr]
    omega

set_option maxRecDepth 100000 in
/-- C8 witness: concrete canonical values whose encodings have exactly
the declared sizes 28, 16, 24 and 360. -/
theorem claim_C8_witness :
    poolW.bytes.length = poolW.header.header.size.val ∧
    tsW.bytes.length = tsW.header.header.size.val ∧
    tyW.bytes.length = tyW.header.header.size.val ∧
    pkgWB.length = pkgW.header.header.size.val := by
  have htsW : tsW.canon := by decide
  have hpkg : pkgW.canon :=
    ⟨by decide, by decide, by decide, by decide, by decide, by decide,
      fun o ho => ⟨[PChunk.typeSpec tsW], List.mem_singleton.mp ho,
        htsW, fun c hc => absurd hc (List.not_mem_nil c)⟩,
      by decide⟩
  exact ⟨claim_C8.1 poolW (by decide), claim_C8.2.1 tsW (by decide),
    claim_C8.2.2.1 tyW (by decide), claim_C8.2.2.2 pkgW pkgWB hpkg rfl⟩

set_option maxRecDepth 100000 in
/-- C8 counterexample: a 40-byte buffer whose table header declares
size 999 decodes successfully (the declared table size is never
consulted), and re-encoding the decoded table yields 40 bytes, not
999: the length law fails for ResTable. -/
theorem claim_C8_cex :
    (ResTable.from_bytes tblCexB true).toOption.map
      (fun p => (p.1.header.header.size.val, (ResTable.bytesE p.1).toOption.map List.length,
        p.2)) = some (999, some 40, []) ∧ tblCexB.length = 40 := by decide

/-- C9: the serialized package header is exactly 288 bytes: encode
appends four unconditional zero bytes after lastPublicKey, and decode
skips four bytes at that position whatever they hold, so the decoded
header does not depend on the padding content. -/
theorem claim_C9 :
    (∀ (v : ResTable_package_header), v.canon → v.bytes.length = 288) ∧
    (∀ (v : ResTable_package_header), v.bytes =
      v.header.bytes ++ v.id.bytes ++ v.name ++ v.typeStrings.bytes ++
        v.lastPublicType.bytes ++ v.keyStrings.bytes ++ v.lastPublicKey.bytes ++
        List.replicate 4 0) ∧
    (∀ (v : ResTable_package_header) (pad rest : Bytes), v.canon → pad.length = 4 →
      ResTable_package_header.from_bytes
        (v.header.bytes ++ v.id.bytes ++ v.name ++ v.typeStrings.bytes ++
          v.lastPublicType.bytes ++ v.keyStrings.bytes ++ v.lastPublicKey.bytes ++
          pad ++ rest) = .ok (v, rest)) := by
  refine ⟨pkg_header_bytes_len, fun v => rfl, fun v pad rest h hpad => ?_⟩
  obtain ⟨ch, id, nm, ts, lpt, ks, lpk⟩ := v
  obtain ⟨hch, hty, hhs, hid, hnm, hnt, hts, hlpt, hks, hlpk⟩ := h
  simp only at hch hty hhs hid hnm hnt hts hlpt hks hlpk
  simp only [ResTable_package_header.from_bytes, List.append_assoc]
  rw [chunk_rt ch _ true hch]
  simp only [bindOk]
  rw [readU32_rt id _ hid]
  simp only [bindOk]
  rw [takeLenOf nm _ hnm, dropLenOf nm _ hnm]
  rw [readU32_rt ts _ hts]
  simp only [bindOk]
  rw [readU32_rt lpt _ hlpt]
  simp only [bindOk]
  rw [readU32_rt ks _ hks]
  simp only [bindOk]
  rw [readU32_rt lpk _ hlpk]
  simp only [bindOk]
  simp only [ResTable_package_header.init, hty]
  rw [if_neg (by simp)]
  rw [if_neg (by simp [hnm]), if_neg (by simp [hnt])]
  have hdrop : (pad ++ rest : Bytes).drop 4 = rest := dropLenOf _ _ hpad
  simp [hnm, hdrop]

set_option maxRecDepth 100000 in
/-- C9 witness: the canonical package header encodes to 288 bytes, and
decoding with the padding bytes 9 9 9 9 in place of the zero padding
returns the same header and the remainder beyond the pad. -/
theorem claim_C9_witness :
    pkgHW.bytes.length = 288 ∧
    ResTable_package_header.from_bytes
      (pkgHW.header.bytes ++ pkgHW.id.bytes ++ pkgHW.name ++ pkgHW.typeStrings.bytes ++
        pkgHW.lastPublicType.bytes ++ pkgHW.keyStrings.bytes ++ pkgHW.lastPublicKey.bytes ++
        [9, 9, 9, 9] ++ [7, 7]) = .ok (pkgHW, [7, 7]) :=
⟨claim_C9.1 pkgHW (by decide),
  claim_C9.2.2 pkgHW [9, 9, 9, 9] [7, 7] (by decide) (by decide)⟩

set_option maxRecDepth 100000 in
/-- C10: a package whose scan region is empty decodes successfully with
types = [none] (the scan appends the open group, still none, on
exhaustion), not the empty list; and when the first scanned chunk is a
TYPE chunk with no open group, decode fails with the none-append error
(Python's AttributeError on None.append), not with the expected-type
mismatch error. -/
theorem claim_C10 :
    (∀ (f : Nat), scanLoop f [] [] none = .ok [none]) ∧
    (ResTable_package.from_bytes (pkgEmptyB ++ [19, 55]) true).toOption.map
      (fun p => (p.1.types, p.2)) = some ([none], [19, 55]) ∧
    (∀ (f : Nat) (b : Bytes) (types : List (Option (List PChunk)))
      (hdr : ResChunk_header) (hb : Bytes) (ty : ResTable_type) (b1 : Bytes), b ≠ [] →
      ResChunk_header.from_bytes b true = .ok (hdr, hb) →
      hdr.type = RES_TABLE_TYPE_TYPE →
      ResTable_type.from_bytes b true = .ok (ty, b1) →
      scanLoop (f + 1) b types none = .error .noneAppend) ∧
    ResTable_package.from_bytes pkgTypeFirstB true = .error .noneAppend ∧
    (∀ (expected : List Nat) (got : Option Nat),
      Err.noneAppend ≠ Err.chunkHeaderWrongType expected got) :=
⟨fun f => scanLoop_nil f [] none, by decide,
  fun f b types hdr hb ty b1 h1 h2 h3 h4 => scanLoop_type_none h1 h2 h3 h4,
  rfl, fun expected got h => by cases h⟩

set_option maxRecDepth 100000 in
/-- C10 witness: the exhausted scan at fuel 3 yields [none], and a TYPE
chunk in scan position with no open group fails with the none-append
error. -/
theorem claim_C10_witness :
    scanLoop 3 [] [] none = .ok [none] ∧
    scanLoop 1 tyW.bytes [] none = .error .noneAppend :=
⟨claim_C10.1 3,
  claim_C10.2.2.1 0 tyW.bytes [] ⟨513, ⟨24, true⟩, ⟨24, true⟩⟩
    [1, 0, 0, 0, 0, 0, 0, 0, 0, 0, 0, 0, 4, 0, 0, 0] tyW [] (by decide) rfl rfl rfl⟩

end Arsc
